import Mathlib

/- Shallow embedding of the Overmind Pathing module (the `Pathing` class in
   src/src/overlords/defense/rangedDefense.ts). Pure functions of the source are
   translated as Lean functions; the mutable `Memory`/room-cache state is threaded
   explicitly; machine bytes in a CostMatrix are Nat values clamped to 0..255 on
   write, as the game engine's CostMatrix.set does. External collaborators (the
   PathFinder search oracle, Game.map, room observation) are fields of an `Env`
   record, so theorems quantify over their behaviour. -/

set_option maxRecDepth 4000

namespace OvermindPathing

inductive Terrain where
  | plain
  | swamp
  | wall
deriving DecidableEq

inductive RoomType where
  | alley
  | sourceKeeper
  | standard
deriving DecidableEq

structure RoomPosition where
  x : Int
  y : Int
  roomName : String
deriving DecidableEq

structure TerrainCosts where
  plainCost : Nat
  swampCost : Nat
deriving DecidableEq

structure Structure where
  x : Int
  y : Int
  structureType : String
  isWalkable : Bool
deriving DecidableEq

structure ConstructionSite where
  x : Int
  y : Int
  my : Bool
  isWalkable : Bool
deriving DecidableEq

structure Creep where
  x : Int
  y : Int
  hostile : Bool
  attackParts : Nat
  rangedAttackParts : Nat
deriving DecidableEq

structure Room where
  name : String
  structures : List Structure
  constructionSites : List ConstructionSite
  creeps : List Creep
  keeperLairs : List (Int × Int)
deriving DecidableEq

/-- Modelled from the spec: `room.hostiles` (a prototype extension defined outside
    src/) is the list of hostile agents currently observed in the room; every
    hostile is one of the room's creeps, so it is the hostile sublist of
    `room.creeps` (FIND_CREEPS). -/
def Room.hostiles (room : Room) : List Creep :=
  room.creeps.filter (fun c => c.hostile)

/-- Per-room persisted memory consulted by `shouldAvoid`. -/
structure RoomMemory where
  avoid : Bool
deriving DecidableEq

-- CostMatrix model ------------------------------------------------------------

/-- A CostMatrix: a byte cost per tile of a 50 x 50 room. -/
def Grid := Int → Int → Nat

def emptyGrid : Grid := fun _ _ => 0

def inBounds (x y : Int) : Prop := 0 ≤ x ∧ x ≤ 49 ∧ 0 ≤ y ∧ y ≤ 49

instance (x y : Int) : Decidable (inBounds x y) := by
  unfold inBounds; infer_instance

/-- CostMatrix.set: stores `min v 255` at (x0, y0); out-of-range coordinates are
    ignored (the engine's Uint8Array discards them). -/
def cmSet (g : Grid) (x0 y0 : Int) (v : Nat) : Grid :=
  fun x y => if x = x0 ∧ y = y0 ∧ inBounds x0 y0 then min v 255 else g x y

/-- CostMatrix.get. -/
def cmGet (g : Grid) (x y : Int) : Nat := g x y

/-- Apply a list of (x, y, value) writes in order, as a sequence of CostMatrix.set
    calls. -/
def applyWrites (ws : List (Int × Int × Nat)) (g : Grid) : Grid :=
  ws.foldl (fun m w => cmSet m w.1 w.2.1 w.2.2) g

/-- Accumulator form of the last write targeting cell (x, y) in a write list. -/
def lastHitFrom (x y : Int) (acc : Option Nat) : List (Int × Int × Nat) → Option Nat
  | [] => acc
  | w :: ws => lastHitFrom x y (if w.1 = x ∧ w.2.1 = y then some w.2.2 else acc) ws

/-- The value of the last write targeting cell (x, y), if any. -/
def lastHit (x y : Int) (ws : List (Int × Int × Nat)) : Option Nat :=
  lastHitFrom x y none ws

theorem lastHitFrom_or (x y : Int) (ws : List (Int × Int × Nat)) :
    ∀ acc, lastHitFrom x y acc ws = (lastHit x y ws).or acc := by
  induction ws with
  | nil => intro acc; simp [lastHit, lastHitFrom]
  | cons w ws ih =>
    intro acc
    have e1 : lastHitFrom x y acc (w :: ws)
        = lastHitFrom x y (if w.1 = x ∧ w.2.1 = y then some w.2.2 else acc) ws := rfl
    have e2 : lastHit x y (w :: ws)
        = lastHitFrom x y (if w.1 = x ∧ w.2.1 = y then some w.2.2 else none) ws := rfl
    rw [e1, e2, ih, ih]
    by_cases hw : w.1 = x ∧ w.2.1 = y
    · rw [if_pos hw, if_pos hw]
      cases lastHit x y ws <;> rfl
    · rw [if_neg hw, if_neg hw]
      cases lastHit x y ws <;> rfl

theorem cmSet_self (g : Grid) (x y : Int) (v : Nat) (hb : inBounds x y) :
    cmSet g x y v x y = min v 255 := by
  simp [cmSet, hb]

theorem cmSet_other (g : Grid) (x0 y0 : Int) (v : Nat) (x y : Int)
    (h : ¬(x = x0 ∧ y = y0)) : cmSet g x0 y0 v x y = g x y := by
  simp only [cmSet]
  rw [if_neg]
  intro hc
  exact h ⟨hc.1, hc.2.1⟩

/-- After a sequence of writes, an in-bounds cell holds the clamped value of the
    last write targeting it, or its previous value if no write targets it. -/
theorem applyWrites_spec (x y : Int) (hb : inBounds x y) :
    ∀ (ws : List (Int × Int × Nat)) (g : Grid),
      applyWrites ws g x y =
        (match lastHit x y ws with
         | none => g x y
         | some v => min v 255) := by
  intro ws
  induction ws with
  | nil => intro g; simp [applyWrites, lastHit, lastHitFrom]
  | cons w ws ih =>
    intro g
    have e1 : applyWrites (w :: ws) g x y
        = applyWrites ws (cmSet g w.1 w.2.1 w.2.2) x y := rfl
    have e2 : lastHit x y (w :: ws) =
        (lastHit x y ws).or (if w.1 = x ∧ w.2.1 = y then some w.2.2 else none) := by
      show lastHitFrom x y _ ws = _
      rw [lastHitFrom_or]
    rw [e1, ih, e2]
    by_cases hw : w.1 = x ∧ w.2.1 = y
    · obtain ⟨hx, hy⟩ := hw
      subst hx
      subst hy
      cases hcur : lastHit w.1 w.2.1 ws with
      | none => simp [Option.or, cmSet_self g w.1 w.2.1 w.2.2 hb]
      | some v => simp [Option.or]
    · have hother : cmSet g w.1 w.2.1 w.2.2 x y = g x y :=
        cmSet_other g w.1 w.2.1 w.2.2 x y (fun hc => hw ⟨hc.1.symm, hc.2.symm⟩)
      rw [if_neg hw]
      cases hcur : lastHit x y ws with
      | none => simp [Option.or, hother]
      | some v => simp [Option.or]

/-- An out-of-bounds cell is never changed by writes. -/
theorem applyWrites_oob (x y : Int) (hb : ¬inBounds x y) :
    ∀ (ws : List (Int × Int × Nat)) (g : Grid), applyWrites ws g x y = g x y := by
  intro ws
  induction ws with
  | nil => intro g; rfl
  | cons w ws ih =>
    intro g
    show applyWrites ws (cmSet g w.1 w.2.1 w.2.2) x y = g x y
    rw [ih]
    simp only [cmSet]
    rw [if_neg]
    intro hc
    rw [hc.1, hc.2.1] at hb
    exact hb hc.2.2

theorem lastHit_none (x y : Int) (ws : List (Int × Int × Nat))
    (h : ∀ w ∈ ws, ¬(w.1 = x ∧ w.2.1 = y)) : lastHit x y ws = none := by
  induction ws with
  | nil => rfl
  | cons w ws ih =>
    show lastHitFrom x y _ ws = none
    rw [lastHitFrom_or]
    rw [if_neg (h w (by simp))]
    rw [ih (fun w hw => h w (by simp [hw]))]
    rfl

theorem lastHit_mem (x y : Int) (ws : List (Int × Int × Nat)) (v : Nat)
    (h : lastHit x y ws = some v) : ∃ w ∈ ws, w.1 = x ∧ w.2.1 = y ∧ w.2.2 = v := by
  induction ws with
  | nil => simp [lastHit, lastHitFrom] at h
  | cons w ws ih =>
    have hsplit : lastHit x y (w :: ws) =
        (lastHit x y ws).or (if w.1 = x ∧ w.2.1 = y then some w.2.2 else none) := by
      show lastHitFrom x y _ ws = _
      rw [lastHitFrom_or]
    rw [hsplit] at h
    cases hcur : lastHit x y ws with
    | some u =>
      rw [hcur] at h
      simp [Option.or] at h
      obtain ⟨w', hw', hp⟩ := ih (by rw [hcur, h])
      exact ⟨w', by simp [hw'], hp⟩
    | none =>
      rw [hcur] at h
      simp [Option.or] at h
      exact ⟨w, by simp, h.1.1, h.1.2, h.2⟩

theorem lastHit_isSome (x y : Int) (ws : List (Int × Int × Nat))
    (h : ∃ w ∈ ws, w.1 = x ∧ w.2.1 = y) : (lastHit x y ws).isSome = true := by
  induction ws with
  | nil => simp at h
  | cons w ws ih =>
    have hsplit : lastHit x y (w :: ws) =
        (lastHit x y ws).or (if w.1 = x ∧ w.2.1 = y then some w.2.2 else none) := by
      show lastHitFrom x y _ ws = _
      rw [lastHitFrom_or]
    rw [hsplit]
    rcases h with ⟨w', hw', hp⟩
    rcases List.mem_cons.mp hw' with rfl | hmem
    · rw [if_pos hp]
      cases lastHit x y ws <;> simp [Option.or]
    · have := ih ⟨w', hmem, hp⟩
      cases hcur : lastHit x y ws with
      | none => rw [hcur] at this; simp at this
      | some u => simp [hcur, Option.or]

/-- If every write targeting (x, y) carries the same value v and at least one does,
    the final cell value is `min v 255`. -/
theorem applyWrites_const (x y : Int) (hb : inBounds x y)
    (ws : List (Int × Int × Nat)) (g : Grid) (v : Nat)
    (hex : ∃ w ∈ ws, w.1 = x ∧ w.2.1 = y)
    (hall : ∀ w ∈ ws, w.1 = x → w.2.1 = y → w.2.2 = v) :
    applyWrites ws g x y = min v 255 := by
  rw [applyWrites_spec x y hb]
  cases hcur : lastHit x y ws with
  | none =>
    have := lastHit_isSome x y ws hex
    rw [hcur] at this
    simp at this
  | some u =>
    obtain ⟨w, hw, h1, h2, h3⟩ := lastHit_mem x y ws u hcur
    have := hall w hw h1 h2
    simp [← h3, this]

/-- If no write targets (x, y), the cell keeps its previous value. -/
theorem applyWrites_none (x y : Int) (ws : List (Int × Int × Nat)) (g : Grid)
    (h : ∀ w ∈ ws, ¬(w.1 = x ∧ w.2.1 = y)) : applyWrites ws g x y = g x y := by
  by_cases hb : inBounds x y
  · rw [applyWrites_spec x y hb, lastHit_none x y ws h]
  · exact applyWrites_oob x y hb ws g

-- Pure cost matrix builders ---------------------------------------------------

/-- Writes made by the road branch of getDefaultMatrix's structure loop. -/
def roadWrites (room : Room) : List (Int × Int × Nat) :=
  room.structures.filterMap (fun s =>
    if s.structureType = "road" then some (s.x, s.y, 1) else none)

/-- Writes made for impassible (non-road, non-walkable) structures in
    getDefaultMatrix. -/
def impassibleStructureWrites (room : Room) : List (Int × Int × Nat) :=
  room.structures.filterMap (fun s =>
    if s.structureType = "road" then none
    else if s.isWalkable then none
    else some (s.x, s.y, 255))

/-- Writes for owned, non-walkable construction sites. -/
def siteWrites (room : Room) : List (Int × Int × Nat) :=
  room.constructionSites.filterMap (fun c =>
    if c.my ∧ ¬c.isWalkable then some (c.x, c.y, 255) else none)

/-- Pathing.getDefaultMatrix: roads cost 1, impassible structures and owned
    non-walkable construction sites cost 255, everything else left unset (0). -/
def defaultMatrixGrid (room : Room) : Grid :=
  applyWrites (roadWrites room ++ impassibleStructureWrites room ++ siteWrites room)
    emptyGrid

/-- Writes for non-walkable structures in getDirectMatrix (roads not special-cased). -/
def directImpassibleWrites (room : Room) : List (Int × Int × Nat) :=
  room.structures.filterMap (fun s =>
    if s.isWalkable then none else some (s.x, s.y, 255))

/-- Pathing.getDirectMatrix: like the default matrix but ignoring roads. -/
def directMatrixGrid (room : Room) : Grid :=
  applyWrites (directImpassibleWrites room ++ siteWrites room) emptyGrid

/-- Writes marking every creep in the room impassable. -/
def creepWrites (room : Room) : List (Int × Int × Nat) :=
  room.creeps.map (fun c => (c.x, c.y, 255))

/-- Pathing.getCreepMatrix: the default matrix with all creeps impassable. -/
def creepMatrixGrid (room : Room) : Grid :=
  applyWrites (creepWrites room) (defaultMatrixGrid room)

/-- The 7 x 7 block of offsets visited by getKitingMatrix's penalty loop, in
    source order (dx outer from -3 to 3, dy inner from -3 to 3). -/
def kiteOffsets : List (Int × Int) :=
  ((List.range 7).map (fun i => (i : Int) - 3)).flatMap (fun dx =>
    ((List.range 7).map (fun j => (j : Int) - 3)).map (fun dy => (dx, dy)))

/-- The body of getKitingMatrix's penalty loop over an offset list: for each
    offset, read the current cell and store it increased by
    40 - 10 * max(|dx|, |dy|). -/
def kiteFold (cx cy : Int) (L : List (Int × Int)) (m : Grid) : Grid :=
  L.foldl (fun g o =>
    cmSet g (cx + o.1) (cy + o.2)
      (cmGet g (cx + o.1) (cy + o.2) + (40 - 10 * max o.1.natAbs o.2.natAbs))) m

/-- One hostile's penalty pass in getKitingMatrix (offsets within radius 3). -/
def applyKitePenalty (cx cy : Int) (m : Grid) : Grid :=
  kiteFold cx cy kiteOffsets m

/-- Pathing.getKitingMatrix: the creep matrix plus a radial penalty around each
    hostile with active ATTACK or RANGED_ATTACK parts. -/
def kitingMatrixGrid (room : Room) : Grid :=
  (room.hostiles.filter (fun c => 0 < c.attackParts ∨ 0 < c.rangedAttackParts)).foldl
    (fun m c => applyKitePenalty c.x c.y m) (creepMatrixGrid room)

/-- The 11 x 11 block of offsets around a keeper lair in getSkMatrix. -/
def skOffsets : List (Int × Int) :=
  ((List.range 11).map (fun i => (i : Int) - 5)).flatMap (fun dx =>
    ((List.range 11).map (fun j => (j : Int) - 5)).map (fun dy => (dx, dy)))

/-- Writes blocking the 11 x 11 area around every keeper lair. -/
def skWrites (room : Room) : List (Int × Int × Nat) :=
  room.keeperLairs.flatMap (fun lair =>
    skOffsets.map (fun o => (lair.1 + o.1, lair.2 + o.2, 255)))

/-- The matrix cached as room._skMatrix: default matrix plus blocked lair areas. -/
def skMatrixGrid (room : Room) : Grid :=
  applyWrites (skWrites room) (defaultMatrixGrid room)

-- Search oracle interface -----------------------------------------------------

/-- Result of the external PathFinder search oracle. -/
structure PathResult where
  path : List RoomPosition
  incomplete : Bool
deriving DecidableEq

structure PFGoal where
  pos : RoomPosition
  range : Nat
deriving DecidableEq

/-- Value a per-room callback may hand to the oracle: fully open (true), fully
    blocked (false), or a per-tile cost matrix. -/
inductive CallbackResult where
  | fullyOpen
  | blocked
  | matrix (g : Grid)

/-- One invocation of PathFinder.search. -/
structure PFQuery where
  origin : RoomPosition
  goals : List PFGoal
  maxOps : Option Nat
  maxRooms : Option Nat
  plainCost : Nat
  swampCost : Nat
  flee : Bool
  roomCallback : String → CallbackResult

/-- Cost returned by findRoute's routeCallback to the region-route oracle. -/
inductive RouteCost where
  | inf
  | fin (q : ℚ)
deriving DecidableEq

/-- MoveOptions fields used by the Pathing class. `none` models an undefined
    (absent) field; `some false` an explicitly false one. -/
structure MoveOptions where
  ignoreCreeps : Option Bool := none
  maxOps : Option Nat := none
  range : Option Nat := none
  terrainCosts : Option TerrainCosts := none
  movingTarget : Bool := false
  route : Option (List String) := none
  useFindRoute : Option Bool := none
  ensurePath : Option Bool := none
  direct : Option Bool := none
  maxRooms : Option Nat := none
  allowHostile : Bool := false
  obstacles : List RoomPosition := []
  avoidSK : Bool := false
  ignoreStructures : Bool := false
  restrictDistance : Option Nat := none
  preferHighway : Option Bool := none
  modifyRoomCallback : Option (Room → Grid → Grid) := none

/-- An options object with every field absent (the literal `{}` at call sites). -/
def defaultMoveOptions : MoveOptions := {}

/-- External collaborators: Game.map (linear distance, region route oracle, room
    type, terrain), PathFinder.search, room observation (Game.rooms) and the
    per-room persisted memory. -/
structure Env where
  linearDistance : String → String → Nat
  mapFindRoute : String → String → (String → RouteCost) → Option (List String)
  pfSearch : PFQuery → PathResult
  rooms : String → Option Room
  memRooms : String → Option RoomMemory
  roomType : String → RoomType
  terrain : String → Int → Int → Terrain

def DEFAULT_MAXOPS : Nat := 20000

/-- Pathing.shouldAvoid: a room is avoided when its persisted memory exists and
    carries the avoid flag. -/
def shouldAvoid (env : Env) (roomName : String) : Bool :=
  match env.memRooms roomName with
  | some m => m.avoid
  | none => false

-- findRoute -------------------------------------------------------------------

/-- The restriction radius of findRoute:
    options.restrictDistance || linearDistance + 10 (JS truthiness, so an absent
    or zero override falls back to linearDistance + 10). -/
def restrictDistanceOf (env : Env) (origin destination : String)
    (opts : MoveOptions) : Nat :=
  match opts.restrictDistance with
  | some n => if n = 0 then env.linearDistance origin destination + 10 else n
  | none => env.linearDistance origin destination + 10

/-- The highway bias factor: 2.5 when preferHighway is requested, else 1. -/
def highwayBias (opts : MoveOptions) : ℚ :=
  if opts.preferHighway = some true then 5 / 2 else 1

/-- The per-region cost callback findRoute hands to the region-route oracle. -/
def findRouteCallback (env : Env) (origin destination : String)
    (opts : MoveOptions) (restrictDistance : Nat) (roomName : String) : RouteCost :=
  if env.linearDistance origin roomName > restrictDistance then .inf
  else if ¬opts.allowHostile ∧ shouldAvoid env roomName = true
          ∧ roomName ≠ destination ∧ roomName ≠ origin then .inf
  else if opts.preferHighway = some true ∧ env.roomType roomName = .alley then .fin 1
  else .fin (highwayBias opts)

/-- Pathing.findRoute: the allowed-region set (origin and destination plus the
    rooms of the oracle's route), or none when the oracle finds no route. -/
def findRoute (env : Env) (origin destination : String)
    (opts : MoveOptions) : Option (List String) :=
  let restrictDistance := restrictDistanceOf env origin destination opts
  match env.mapFindRoute origin destination
      (findRouteCallback env origin destination opts restrictDistance) with
  | none => none
  | some routeRooms => some (origin :: destination :: routeRooms)

-- getCostMatrix (value level) -------------------------------------------------

/-- Writes applied for caller-supplied extra obstacles lying in the room. -/
def obstacleWrites (roomName : String) (obstacles : List RoomPosition) :
    List (Int × Int × Nat) :=
  obstacles.filterMap (fun ob =>
    if ob.roomName = roomName then some (ob.x, ob.y, 255) else none)

/-- The base matrix variant getCostMatrix selects from options (before obstacle
    application). -/
def baseGrid (env : Env) (room : Room) (opts : MoveOptions) : Grid :=
  if opts.ignoreCreeps = some false then creepMatrixGrid room
  else if opts.avoidSK then
    (if env.roomType room.name ≠ .sourceKeeper then defaultMatrixGrid room
     else skMatrixGrid room)
  else if opts.ignoreStructures then emptyGrid
  else if opts.direct = some true then directMatrixGrid room
  else defaultMatrixGrid room

/-- Value of the matrix Pathing.getCostMatrix returns (cloning does not change
    the value; mutation is studied separately with the explicit store model). -/
def getCostMatrixGrid (env : Env) (room : Room) (opts : MoveOptions) : Grid :=
  let base := baseGrid env room opts
  if opts.obstacles ≠ [] then applyWrites (obstacleWrites room.name opts.obstacles) base
  else base

-- findPath --------------------------------------------------------------------

/-- Pathing.roomCallback: reject rooms outside the allowed set or avoided rooms
    (unless origin/destination or hostile traversal allowed); otherwise hand the
    oracle the room's cost matrix, or "fully open" without vision. -/
def roomCallback (env : Env) (origin destination : RoomPosition)
    (allowedRooms : Option (List String)) (opts : MoveOptions)
    (roomName : String) : CallbackResult :=
  if (match allowedRooms with
      | some l => decide (roomName ∉ l)
      | none => false) = true then .blocked
  else if ¬opts.allowHostile ∧ shouldAvoid env roomName = true
          ∧ roomName ≠ origin.roomName ∧ roomName ≠ destination.roomName then .blocked
  else
    match env.rooms roomName with
    | some room =>
      match opts.modifyRoomCallback with
      | some f => .matrix (f room (getCostMatrixGrid env room opts))
      | none => .matrix (getCostMatrixGrid env room opts)
    | none => .fullyOpen

/-- The defaults findPath installs on its options, followed by the movingTarget
    range adjustment. -/
def findPathDefaults (opts : MoveOptions) : MoveOptions :=
  let d := { opts with
    ignoreCreeps := opts.ignoreCreeps.orElse (fun _ => some true),
    maxOps := opts.maxOps.orElse (fun _ => some DEFAULT_MAXOPS),
    range := opts.range.orElse (fun _ => some 1),
    terrainCosts := opts.terrainCosts.orElse (fun _ => some ⟨1, 5⟩) }
  if d.movingTarget then { d with range := some 0 } else d

/-- One attempt of Pathing.findPath: install defaults, choose whether to use
    findRoute, collapse terrain costs for direct movement, and invoke the oracle
    once. -/
def findPathOnce (env : Env) (origin destination : RoomPosition)
    (opts : MoveOptions) : PathResult :=
  let d := findPathDefaults opts
  let roomDistance := env.linearDistance origin.roomName destination.roomName
  let allowedRooms : Option (List String) :=
    match d.route with
    | some r => some r
    | none =>
      if d.useFindRoute = some true ∨ (d.useFindRoute = none ∧ roomDistance > 2) then
        findRoute env origin.roomName destination.roomName d
      else none
  let d2 := if d.direct = some true then { d with terrainCosts := some ⟨1, 1⟩ } else d
  env.pfSearch {
    origin := origin,
    goals := [⟨destination, d2.range.getD 1⟩],
    maxOps := d2.maxOps,
    maxRooms := d2.maxRooms,
    plainCost := (d2.terrainCosts.getD ⟨1, 5⟩).plainCost,
    swampCost := (d2.terrainCosts.getD ⟨1, 5⟩).swampCost,
    flee := false,
    roomCallback := roomCallback env origin destination allowedRooms d2 }

/-- Pathing.findPath with its bounded retry: on an incomplete ensured path with
    useFindRoute unspecified and the rooms within distance 2, recurse once with
    useFindRoute forced on (the fuel bounds the recursion of the source, whose
    retry branch is unreachable on the recursive call). -/
def findPathAux (env : Env) (origin destination : RoomPosition)
    (opts : MoveOptions) : Nat → PathResult
  | 0 => findPathOnce env origin destination opts
  | fuel + 1 =>
    let ret := findPathOnce env origin destination opts
    if ret.incomplete = true ∧ opts.ensurePath = some true then
      if opts.useFindRoute = none then
        if env.linearDistance origin.roomName destination.roomName ≤ 2 then
          findPathAux env origin destination { opts with useFindRoute := some true } fuel
        else ret
      else ret
    else ret

def findPath (env : Env) (origin destination : RoomPosition)
    (opts : MoveOptions) : PathResult :=
  findPathAux env origin destination opts 2

/-- Pathing.findShortestPath: findPath with defaults ignoreCreeps, range 1 and
    direct terrain costs. -/
def findShortestPath (env : Env) (startPos endPos : RoomPosition)
    (opts : MoveOptions) : PathResult :=
  findPath env startPos endPos { opts with
    ignoreCreeps := opts.ignoreCreeps.orElse (fun _ => some true),
    range := opts.range.orElse (fun _ => some 1),
    direct := opts.direct.orElse (fun _ => some true) }

-- Distance memoization --------------------------------------------------------

/-- Modelled from the spec: RoomPosition.name (a prototype extension outside
    src/) is a string uniquely naming a position; the memo tables are keyed by
    the sorted pair of names. -/
def posName (p : RoomPosition) : String :=
  p.roomName ++ ":" ++ toString p.x ++ ":" ++ toString p.y

/-- Lexicographic character-list comparison: the JS `<` on strings. -/
def charListLt : List Char → List Char → Bool
  | [], [] => false
  | [], _ :: _ => true
  | _ :: _, [] => false
  | a :: as, b :: bs =>
    if a < b then true else if b < a then false else charListLt as bs

/-- JS string comparison a < b. -/
def strLt (a b : String) : Bool := charListLt a.data b.data

/-- JS string comparison a <= b. -/
def strLe (a b : String) : Bool := !strLt b a

/-- The alphabetized key pair used by Pathing.distance:
    [arg1.name, arg2.name].sort(). -/
def sortedNames (a b : RoomPosition) : String × String :=
  if strLe (posName a) (posName b) = true then (posName a, posName b)
  else (posName b, posName a)

/-- The alphabetized position pair used by Pathing.weightedDistance
    (if arg1.name < arg2.name keep the order, else swap). -/
def orderedPair (a b : RoomPosition) : RoomPosition × RoomPosition :=
  if strLt (posName a) (posName b) = true then (a, b) else (b, a)

/-- The persisted Memory.pathing tables, as association lists keyed by the (name1,
    name2) pair. -/
structure PathingMem where
  distances : List ((String × String) × Nat)
  weightedDistances : List ((String × String) × Nat)
deriving DecidableEq

def lookupD (t : List ((String × String) × Nat)) (k : String × String) : Option Nat :=
  (t.find? (fun e => e.1 = k)).map (fun e => e.2)

/-- Assignment into a nested memory table (overwrites any previous entry). -/
def insertD (t : List ((String × String) × Nat)) (k : String × String) (v : Nat) :
    List ((String × String) × Nat) :=
  (k, v) :: t.filter (fun e => e.1 ≠ k)

/-- Pathing.distance: memoized shortest-path length under the sorted-name key.
    The slot is (re)computed when absent or zero (JS falsiness) and written only
    when the search completed; the table entry after the call is returned. -/
def distance (env : Env) (mem : PathingMem) (a b : RoomPosition) :
    Option Nat × PathingMem :=
  if lookupD mem.distances (sortedNames a b) = none
      ∨ lookupD mem.distances (sortedNames a b) = some 0 then
    if (findShortestPath env a b defaultMoveOptions).incomplete = false then
      (lookupD (insertD mem.distances (sortedNames a b)
          (findShortestPath env a b defaultMoveOptions).path.length) (sortedNames a b),
       { mem with distances := (insertD mem.distances (sortedNames a b)
          (findShortestPath env a b defaultMoveOptions).path.length) })
    else (lookupD mem.distances (sortedNames a b), mem)
  else (lookupD mem.distances (sortedNames a b), mem)

/-- Pathing.calculatePathWeight: sum of tile weights along the found path
    (road or unobserved room 1, plain 2, swamp 10). -/
def calculatePathWeight (env : Env) (startPos endPos : RoomPosition)
    (opts : MoveOptions) : Nat :=
  let d := { opts with range := opts.range.orElse (fun _ => some 1) }
  let ret := findPath env startPos endPos d
  ret.path.foldl (fun w pos =>
    match env.rooms pos.roomName with
    | none => w + 1
    | some room =>
      if room.structures.any (fun s =>
          decide (s.structureType = "road" ∧ s.x = pos.x ∧ s.y = pos.y)) then w + 1
      else
        match env.terrain pos.roomName pos.x pos.y with
        | .plain => w + 2
        | .swamp => w + 10
        | .wall => w) 0

/-- Pathing.weightedDistance: memoized calculatePathWeight of the alphabetized
    pair (stored unconditionally; no incompleteness check). -/
def weightedDistance (env : Env) (mem : PathingMem) (a b : RoomPosition) :
    Option Nat × PathingMem :=
  if lookupD mem.weightedDistances
        (posName (orderedPair a b).1, posName (orderedPair a b).2) = none
      ∨ lookupD mem.weightedDistances
        (posName (orderedPair a b).1, posName (orderedPair a b).2) = some 0 then
    (lookupD (insertD mem.weightedDistances
        (posName (orderedPair a b).1, posName (orderedPair a b).2)
        (calculatePathWeight env (orderedPair a b).1 (orderedPair a b).2
          defaultMoveOptions))
      (posName (orderedPair a b).1, posName (orderedPair a b).2),
     { mem with weightedDistances := (insertD mem.weightedDistances
        (posName (orderedPair a b).1, posName (orderedPair a b).2)
        (calculatePathWeight env (orderedPair a b).1 (orderedPair a b).2
          defaultMoveOptions)) })
  else (lookupD mem.weightedDistances
      (posName (orderedPair a b).1, posName (orderedPair a b).2), mem)

-- isReachable -----------------------------------------------------------------

/-- An obstacle argument: a bare position or a position-bearing object. -/
inductive PosLike where
  | pos (p : RoomPosition)
  | obj (p : RoomPosition)
deriving DecidableEq

def PosLike.toPos : PosLike → RoomPosition
  | .pos p => p
  | .obj p => p

/-- The matrix isReachable seeds: every listed obstacle tile is set to the soft
    obstacle cost 0xfe = 254. -/
def isReachableMatrix (obstacles : List PosLike) : Grid :=
  applyWrites (obstacles.map (fun ob => (ob.toPos.x, ob.toPos.y, 254))) emptyGrid

/-- The single-room search isReachable performs (maxRooms 1, plain 1, swamp 5,
    default maxOps 1000 and range 1). -/
def isReachableSearch (env : Env) (startPos endPos : RoomPosition)
    (obstacles : List PosLike) (opts : MoveOptions) : PathResult :=
  env.pfSearch {
    origin := startPos,
    goals := [⟨endPos, opts.range.getD 1⟩],
    maxOps := some (opts.maxOps.getD 1000),
    maxRooms := some 1,
    plainCost := 1,
    swampCost := 5,
    flee := false,
    roomCallback := fun roomName =>
      if roomName = endPos.roomName then .matrix (isReachableMatrix obstacles)
      else .blocked }

/-- Pathing.isReachable. First component: the returned boolean; second: whether
    the cross-room error was logged. -/
def isReachable (env : Env) (startPos endPos : RoomPosition)
    (obstacles : List PosLike) (opts : MoveOptions) : Bool × Bool :=
  if startPos.roomName ≠ endPos.roomName then (false, true)
  else
    let matrix := isReachableMatrix obstacles
    let ret := isReachableSearch env startPos endPos obstacles opts
    if ret.incomplete = true then (false, false)
    else (ret.path.all (fun p => decide (cmGet matrix p.x p.y ≤ 100)), false)

-- findPathablePosition --------------------------------------------------------

/-- The offsets of ring `radius` around the center, in source scan order
    (dx outer from -radius to radius, dy inner, skipping interior cells). -/
def ringOffsets (radius : Nat) : List (Int × Int) :=
  ((List.range (2 * radius + 1)).map (fun i => (i : Int) - radius)).flatMap (fun dx =>
    ((List.range (2 * radius + 1)).map (fun j => (j : Int) - radius)).filterMap (fun dy =>
      if dy.natAbs ≠ radius ∧ dx.natAbs ≠ radius then none else some (dx, dy)))

/-- All offsets scanned by findPathablePosition, radius 0 through 22 in order. -/
def scanOffsets : List (Int × Int) :=
  (List.range 23).flatMap ringOffsets

/-- Pathing.findPathablePosition: first non-wall tile spiraling outward from
    (25, 25); a sentinel out-of-bounds position when none is found. -/
def findPathablePosition (env : Env) (roomName : String) : RoomPosition :=
  match scanOffsets.find? (fun o =>
      decide (env.terrain roomName (25 + o.1) (25 + o.2) ≠ .wall)) with
  | some o => ⟨25 + o.1, 25 + o.2, roomName⟩
  | none => ⟨-10, -10, "cannotFindPathablePosition"⟩

-- Explicit store model for CostMatrix aliasing and room caches ----------------

/-- Read slot r of a heap of matrices (out-of-range reads give the empty grid;
    they never occur in the modelled runs). -/
def heapRead : List Grid → Nat → Grid
  | [], _ => emptyGrid
  | g :: _, 0 => g
  | _ :: t, n + 1 => heapRead t n

/-- Overwrite slot r of a heap of matrices. -/
def heapWrite : List Grid → Nat → Grid → List Grid
  | [], _, _ => []
  | _ :: t, 0, g => g :: t
  | h :: t, n + 1, g => h :: heapWrite t n g

theorem heapRead_append_lt (l l2 : List Grid) (n : Nat) (h : n < l.length) :
    heapRead (l ++ l2) n = heapRead l n := by
  induction l generalizing n with
  | nil => exact absurd h (by simp)
  | cons g t ih =>
    cases n with
    | zero => rfl
    | succ m => exact ih m (Nat.lt_of_succ_lt_succ h)

theorem heapRead_append_self (l : List Grid) (g : Grid) :
    heapRead (l ++ [g]) l.length = g := by
  induction l with
  | nil => rfl
  | cons h t ih => exact ih

theorem heapWrite_length (l : List Grid) (n : Nat) (g : Grid) :
    (heapWrite l n g).length = l.length := by
  induction l generalizing n with
  | nil => rfl
  | cons h t ih =>
    cases n with
    | zero => rfl
    | succ m =>
      show (heapWrite t m g).length + 1 = t.length + 1
      rw [ih m]

theorem heapRead_heapWrite_self (l : List Grid) (n : Nat) (g : Grid)
    (h : n < l.length) : heapRead (heapWrite l n g) n = g := by
  induction l generalizing n with
  | nil => exact absurd h (by simp)
  | cons hd t ih =>
    cases n with
    | zero => rfl
    | succ m => exact ih m (Nat.lt_of_succ_lt_succ h)

theorem heapRead_heapWrite_other (l : List Grid) (n m : Nat) (g : Grid)
    (h : m ≠ n) : heapRead (heapWrite l n g) m = heapRead l m := by
  induction l generalizing n m with
  | nil => rfl
  | cons hd t ih =>
    cases n with
    | zero =>
      cases m with
      | zero => exact absurd rfl h
      | succ k => rfl
    | succ n2 =>
      cases m with
      | zero => rfl
      | succ k => exact ih n2 k (fun he => h (by rw [he]))

/-- The per-room matrix cache slots (room._defaultMatrix etc.). -/
structure RoomCaches where
  defaultMatrix : Option Nat := none
  directMatrix : Option Nat := none
  creepMatrix : Option Nat := none
  skMatrix : Option Nat := none
deriving DecidableEq

/-- A store of CostMatrix objects plus the room's cache slots, making aliasing
    and in-place mutation explicit. -/
structure MatState where
  heap : List Grid
  caches : RoomCaches

def readRef (s : MatState) (r : Nat) : Grid := heapRead s.heap r

def alloc (s : MatState) (g : Grid) : Nat × MatState :=
  (s.heap.length, ⟨s.heap ++ [g], s.caches⟩)

/-- CostMatrix.clone: allocate a fresh matrix holding the same cells. -/
def cloneRef (s : MatState) (r : Nat) : Nat × MatState :=
  alloc s (readRef s r)

/-- CostMatrix.set on the matrix object at slot r. -/
def writeCell (s : MatState) (r : Nat) (x y : Int) (v : Nat) : MatState :=
  ⟨heapWrite s.heap r (cmSet (readRef s r) x y v), s.caches⟩

def writeCells (s : MatState) (r : Nat) (ws : List (Int × Int × Nat)) : MatState :=
  ws.foldl (fun st w => writeCell st r w.1 w.2.1 w.2.2) s

theorem writeCells_heap_length (r : Nat) (ws : List (Int × Int × Nat)) :
    ∀ s : MatState, (writeCells s r ws).heap.length = s.heap.length := by
  induction ws with
  | nil => intro s; rfl
  | cons w ws ih =>
    intro s
    show (writeCells (writeCell s r w.1 w.2.1 w.2.2) r ws).heap.length = _
    rw [ih]
    exact heapWrite_length _ _ _

theorem writeCells_caches (r : Nat) (ws : List (Int × Int × Nat)) :
    ∀ s : MatState, (writeCells s r ws).caches = s.caches := by
  induction ws with
  | nil => intro s; rfl
  | cons w ws ih =>
    intro s
    show (writeCells (writeCell s r w.1 w.2.1 w.2.2) r ws).caches = _
    rw [ih]
    rfl

theorem readRef_writeCells_other (r r2 : Nat) (h : r2 ≠ r)
    (ws : List (Int × Int × Nat)) :
    ∀ s : MatState, readRef (writeCells s r ws) r2 = readRef s r2 := by
  induction ws with
  | nil => intro s; rfl
  | cons w ws ih =>
    intro s
    show readRef (writeCells (writeCell s r w.1 w.2.1 w.2.2) r ws) r2 = _
    rw [ih]
    exact heapRead_heapWrite_other _ _ _ _ h

theorem readRef_writeCells_self (r : Nat) (ws : List (Int × Int × Nat)) :
    ∀ s : MatState, r < s.heap.length →
      readRef (writeCells s r ws) r = applyWrites ws (readRef s r) := by
  induction ws with
  | nil => intro s _; rfl
  | cons w ws ih =>
    intro s hr
    show readRef (writeCells (writeCell s r w.1 w.2.1 w.2.2) r ws) r = _
    rw [ih _ (by rw [show (writeCell s r w.1 w.2.1 w.2.2).heap.length = s.heap.length
          from heapWrite_length _ _ _]; exact hr)]
    show applyWrites ws
        (heapRead (heapWrite s.heap r (cmSet (readRef s r) w.1 w.2.1 w.2.2)) r)
      = applyWrites (w :: ws) (readRef s r)
    rw [heapRead_heapWrite_self _ _ _ hr]
    rfl

-- Stateful matrix builders ----------------------------------------------------

/-- Pathing.getDefaultMatrix with the room cache: return the cached matrix object
    if present, else build a fresh matrix, cache and return it. -/
def getDefaultMatrixS (room : Room) (s : MatState) : Nat × MatState :=
  match s.caches.defaultMatrix with
  | some r => (r, s)
  | none =>
    let p := alloc s emptyGrid
    let s2 := writeCells p.2 p.1
      (roadWrites room ++ impassibleStructureWrites room ++ siteWrites room)
    (p.1, { s2 with caches := { s2.caches with defaultMatrix := some p.1 } })

/-- Pathing.getDirectMatrix with the room cache. -/
def getDirectMatrixS (room : Room) (s : MatState) : Nat × MatState :=
  match s.caches.directMatrix with
  | some r => (r, s)
  | none =>
    let p := alloc s emptyGrid
    let s2 := writeCells p.2 p.1 (directImpassibleWrites room ++ siteWrites room)
    (p.1, { s2 with caches := { s2.caches with directMatrix := some p.1 } })

/-- Pathing.getCreepMatrix with the room cache: clone the default matrix, block
    creep tiles, cache. -/
def getCreepMatrixS (room : Room) (s : MatState) : Nat × MatState :=
  match s.caches.creepMatrix with
  | some r => (r, s)
  | none =>
    let pd := getDefaultMatrixS room s
    let pc := cloneRef pd.2 pd.1
    let s2 := writeCells pc.2 pc.1 (creepWrites room)
    (pc.1, { s2 with caches := { s2.caches with creepMatrix := some pc.1 } })

/-- Pathing.getSkMatrix with the room cache (non-source-keeper rooms fall back to
    the default matrix). -/
def getSkMatrixS (env : Env) (room : Room) (s : MatState) : Nat × MatState :=
  if env.roomType room.name ≠ .sourceKeeper then getDefaultMatrixS room s
  else
    match s.caches.skMatrix with
    | some r => (r, s)
    | none =>
      let pd := getDefaultMatrixS room s
      let pc := cloneRef pd.2 pd.1
      let s2 := writeCells pc.2 pc.1 (skWrites room)
      (pc.1, { s2 with caches := { s2.caches with skMatrix := some pc.1 } })

/-- The base-variant selection of Pathing.getCostMatrix. -/
def getBaseMatrixS (env : Env) (room : Room) (opts : MoveOptions) (s : MatState) :
    Nat × MatState :=
  if opts.ignoreCreeps = some false then getCreepMatrixS room s
  else if opts.avoidSK then getSkMatrixS env room s
  else if opts.ignoreStructures then alloc s emptyGrid
  else if opts.direct = some true then getDirectMatrixS room s
  else getDefaultMatrixS room s

/-- Pathing.getCostMatrix on the explicit store: select the (cached) base
    variant, apply extra obstacles on a cloned copy only, and clone the result
    when requested (the default). -/
def getCostMatrixS (env : Env) (room : Room) (opts : MoveOptions) (clone : Bool)
    (s : MatState) : Nat × MatState :=
  let p := getBaseMatrixS env room opts s
  let q :=
    if opts.obstacles ≠ [] then
      let pc := cloneRef p.2 p.1
      (pc.1, writeCells pc.2 pc.1 (obstacleWrites room.name opts.obstacles))
    else p
  if clone then cloneRef q.2 q.1 else q

-- Concrete environments for witnesses and counterexamples ---------------------

/-- A neutral environment: flat map, no vision, no memory, search always returns
    an empty complete path. -/
def envBase : Env where
  linearDistance := fun _ _ => 0
  mapFindRoute := fun _ _ _ => none
  pfSearch := fun _ => ⟨[], false⟩
  rooms := fun _ => none
  memRooms := fun _ => none
  roomType := fun _ => .standard
  terrain := fun _ _ _ => .plain

def envC4 : Env :=
  { envBase with linearDistance := fun _ b => if b = "B" then 1 else if b = "R" then 5 else 0 }

def optsC4 : MoveOptions := { restrictDistance := some 3 }

def envC10 : Env :=
  { envBase with mapFindRoute := fun _ _ _ => some ["X"] }

-- C10 -------------------------------------------------------------------------

/-- C10: whenever findRoute returns an allowed-region set, that set contains both
    the origin and the destination region names, whatever rooms the oracle's
    route lists. -/
theorem findRoute_contains_endpoints (env : Env) (origin destination : String)
    (opts : MoveOptions) (l : List String)
    (h : findRoute env origin destination opts = some l) :
    origin ∈ l ∧ destination ∈ l := by
  have h2 : (match env.mapFindRoute origin destination
      (findRouteCallback env origin destination opts
        (restrictDistanceOf env origin destination opts)) with
    | none => (none : Option (List String))
    | some routeRooms => some (origin :: destination :: routeRooms)) = some l := h
  cases hm : env.mapFindRoute origin destination
      (findRouteCallback env origin destination opts
        (restrictDistanceOf env origin destination opts)) with
  | none => rw [hm] at h2; exact absurd h2 (by simp)
  | some routeRooms =>
    rw [hm] at h2
    have : origin :: destination :: routeRooms = l := by injection h2
    rw [← this]
    exact ⟨by simp, by simp⟩

theorem findRoute_contains_endpoints_witness :
    "A" ∈ (["A", "B", "X"] : List String) ∧ "B" ∈ (["A", "B", "X"] : List String) :=
  findRoute_contains_endpoints envC10 "A" "B" {} ["A", "B", "X"] rfl

-- C4 --------------------------------------------------------------------------

/-- C4 (counterexample): with origin region distance 1 to the destination and a
    caller override restrictDistance = 3, the code's radius is 3, not
    max(1 + 10, 3) = 11, and the callback already blocks a room at linear
    distance 5 from the origin, inside the claimed radius. -/
theorem findRoute_restrict_radius_counterexample :
    restrictDistanceOf envC4 "A" "B" optsC4 = 3
    ∧ (3 : Nat) ≠ max (envC4.linearDistance "A" "B" + 10) 3
    ∧ findRouteCallback envC4 "A" "B" optsC4
        (restrictDistanceOf envC4 "A" "B" optsC4) "R" = .inf
    ∧ envC4.linearDistance "A" "R" ≤ max (envC4.linearDistance "A" "B" + 10) 3 := by
  refine ⟨by decide, by decide, ?_, by decide⟩
  rfl

/-- C4 (amended): the restriction radius is the caller's restrictDistance when
    supplied and nonzero, and linearDistance + 10 otherwise (the code takes the
    override verbatim, not a max); every region whose linear distance from the
    origin exceeds this radius is assigned infinite cost by the callback. -/
theorem findRoute_restrict_radius (env : Env) (origin destination : String)
    (opts : MoveOptions) (roomName : String) :
    (opts.restrictDistance = none →
      restrictDistanceOf env origin destination opts
        = env.linearDistance origin destination + 10)
    ∧ (∀ k, opts.restrictDistance = some k → k ≠ 0 →
        restrictDistanceOf env origin destination opts = k)
    ∧ (env.linearDistance origin roomName
          > restrictDistanceOf env origin destination opts →
        findRouteCallback env origin destination opts
          (restrictDistanceOf env origin destination opts) roomName = .inf) := by
  refine ⟨?_, ?_, ?_⟩
  · intro h; unfold restrictDistanceOf; rw [h]
  · intro k hk hk0
    unfold restrictDistanceOf
    rw [hk]
    simp [hk0]
  · intro h
    unfold findRouteCallback
    rw [if_pos h]

theorem findRoute_restrict_radius_witness :
    restrictDistanceOf envC4 "A" "B" optsC4 = 3
    ∧ findRouteCallback envC4 "A" "B" optsC4
        (restrictDistanceOf envC4 "A" "B" optsC4) "R" = .inf :=
  ⟨(findRoute_restrict_radius envC4 "A" "B" optsC4 "R").2.1 3 rfl (by decide),
   (findRoute_restrict_radius envC4 "A" "B" optsC4 "R").2.2 (by decide)⟩

-- C1 --------------------------------------------------------------------------

theorem findPathAux_succ (env : Env) (origin destination : RoomPosition)
    (opts : MoveOptions) (fuel : Nat) :
    findPathAux env origin destination opts (fuel + 1) =
      if (findPathOnce env origin destination opts).incomplete = true
          ∧ opts.ensurePath = some true then
        if opts.useFindRoute = none then
          if env.linearDistance origin.roomName destination.roomName ≤ 2 then
            findPathAux env origin destination
              { opts with useFindRoute := some true } fuel
          else findPathOnce env origin destination opts
        else findPathOnce env origin destination opts
      else findPathOnce env origin destination opts := rfl

/-- C1: if the first search attempt is incomplete, ensurePath was requested,
    useFindRoute was left unspecified by the caller and the regions are within
    linear distance 2, findPath retries exactly once with useFindRoute forced on
    and returns that second attempt's result; in every other case the first
    attempt's result (with whatever partial path it holds) is returned as-is.
    Being a total function, findPath never raises. -/
theorem findPath_retry_policy (env : Env) (origin destination : RoomPosition)
    (opts : MoveOptions) :
    findPath env origin destination opts =
      if (findPathOnce env origin destination opts).incomplete = true
          ∧ opts.ensurePath = some true ∧ opts.useFindRoute = none
          ∧ env.linearDistance origin.roomName destination.roomName ≤ 2 then
        findPathOnce env origin destination { opts with useFindRoute := some true }
      else findPathOnce env origin destination opts := by
  show findPathAux env origin destination opts 2 = _
  rw [findPathAux_succ]
  by_cases h1 : (findPathOnce env origin destination opts).incomplete = true
      ∧ opts.ensurePath = some true
  · by_cases h2 : opts.useFindRoute = none
    · by_cases h3 : env.linearDistance origin.roomName destination.roomName ≤ 2
      · rw [if_pos h1, if_pos h2, if_pos h3, if_pos ⟨h1.1, h1.2, h2, h3⟩,
          findPathAux_succ]
        by_cases hh : (findPathOnce env origin destination
              { opts with useFindRoute := some true }).incomplete = true
            ∧ ({ opts with useFindRoute := some true } : MoveOptions).ensurePath
              = some true
        · rw [if_pos hh, if_neg (by simp)]
        · rw [if_neg hh]
      · rw [if_pos h1, if_pos h2, if_neg h3, if_neg (fun hc => h3 hc.2.2.2)]
    · rw [if_pos h1, if_neg h2, if_neg (fun hc => h2 hc.2.2.1)]
  · rw [if_neg h1, if_neg (fun hc => h1 ⟨hc.1, hc.2.1⟩)]

-- C9 --------------------------------------------------------------------------

/-- A region whose only wall is the center tile (25, 25). -/
def envOnlyCenterWall : Env :=
  { envBase with terrain := fun _ x y =>
      if x = 25 ∧ y = 25 then .wall else .plain }

/-- C9 (counterexample): with (25, 25) walled and (24, 25) open, the scan order
    reaches (24, 24) first (ring 1 starts at offset (-1, -1)), so the claim's
    predicted result (24, 25) is wrong. -/
theorem findPathablePosition_counterexample :
    envOnlyCenterWall.terrain "W1N1" 25 25 = .wall
    ∧ envOnlyCenterWall.terrain "W1N1" 24 25 ≠ .wall
    ∧ findPathablePosition envOnlyCenterWall "W1N1" = ⟨24, 24, "W1N1"⟩
    ∧ (⟨24, 24, "W1N1"⟩ : RoomPosition) ≠ ⟨24, 25, "W1N1"⟩ := by
  refine ⟨by decide, by decide, by decide, by decide⟩

theorem scanOffsets_take :
    scanOffsets.take 3 = [((0 : Int), (0 : Int)), (-1, -1), (-1, 0)] := by decide

theorem scanOffsets_split :
    scanOffsets = [((0 : Int), (0 : Int)), (-1, -1), (-1, 0)] ++ scanOffsets.drop 3 := by
  conv_lhs => rw [← List.take_append_drop 3 scanOffsets]
  rw [scanOffsets_take]

/-- C9 (amended): findPathablePosition returns the first non-wall tile in scan
    order (rings of growing radius, dx outer from -r to r, dy inner): (25, 25)
    on an open center; (24, 24) when only the center is walled; (24, 25) when
    (25, 25) and (24, 24) are walled; and the out-of-bounds sentinel tagged with
    the invalid region name when every tile is a wall. -/
theorem findPathablePosition_scan (env : Env) (roomName : String) :
    (env.terrain roomName 25 25 ≠ .wall →
      findPathablePosition env roomName = ⟨25, 25, roomName⟩)
    ∧ (env.terrain roomName 25 25 = .wall → env.terrain roomName 24 24 ≠ .wall →
      findPathablePosition env roomName = ⟨24, 24, roomName⟩)
    ∧ (env.terrain roomName 25 25 = .wall → env.terrain roomName 24 24 = .wall →
        env.terrain roomName 24 25 ≠ .wall →
      findPathablePosition env roomName = ⟨24, 25, roomName⟩)
    ∧ ((∀ x y : Int, env.terrain roomName x y = .wall) →
      findPathablePosition env roomName = ⟨-10, -10, "cannotFindPathablePosition"⟩) := by
  refine ⟨?_, ?_, ?_, ?_⟩
  · intro h
    unfold findPathablePosition
    rw [scanOffsets_split]
    generalize List.drop 3 scanOffsets = rest
    simp only [List.cons_append, List.nil_append, List.find?]
    norm_num [h]
  · intro h25 h24
    unfold findPathablePosition
    rw [scanOffsets_split]
    generalize List.drop 3 scanOffsets = rest
    simp only [List.cons_append, List.nil_append, List.find?]
    norm_num [h25, h24]
  · intro h25 h24 h24b
    unfold findPathablePosition
    rw [scanOffsets_split]
    generalize List.drop 3 scanOffsets = rest
    simp only [List.cons_append, List.nil_append, List.find?]
    norm_num [h25, h24, h24b]
  · intro hw
    unfold findPathablePosition
    rw [List.find?_eq_none.mpr (fun o _ => by simp [hw])]

theorem findPathablePosition_scan_witness :
    findPathablePosition envBase "W1N1" = ⟨25, 25, "W1N1"⟩
    ∧ findPathablePosition envOnlyCenterWall "W1N1" = ⟨24, 24, "W1N1"⟩ :=
  ⟨(findPathablePosition_scan envBase "W1N1").1 (by decide),
   (findPathablePosition_scan envOnlyCenterWall "W1N1").2.1 (by decide) (by decide)⟩

-- C2 --------------------------------------------------------------------------

theorem lastHit_append (x y : Int) (A B : List (Int × Int × Nat)) :
    lastHit x y (A ++ B) = (lastHit x y B).or (lastHit x y A) := by
  induction A with
  | nil =>
    show lastHit x y B = _
    cases lastHit x y B <;> rfl
  | cons w A ih =>
    have e1 : lastHit x y ((w :: A) ++ B)
        = (lastHit x y (A ++ B)).or
            (if w.1 = x ∧ w.2.1 = y then some w.2.2 else none) := by
      show lastHitFrom x y _ (A ++ B) = _
      rw [lastHitFrom_or]
    have e2 : lastHit x y (w :: A)
        = (lastHit x y A).or (if w.1 = x ∧ w.2.1 = y then some w.2.2 else none) := by
      show lastHitFrom x y _ A = _
      rw [lastHitFrom_or]
    rw [e1, e2, ih]
    cases lastHit x y B <;> cases lastHit x y A <;> rfl

theorem lastHit_of_const (x y : Int) (v : Nat) (ws : List (Int × Int × Nat))
    (hall : ∀ w ∈ ws, w.2.2 = v) :
    lastHit x y ws = none ∨ lastHit x y ws = some v := by
  cases hcur : lastHit x y ws with
  | none => exact Or.inl rfl
  | some u =>
    obtain ⟨w, hw, _, _, hv⟩ := lastHit_mem x y ws u hcur
    exact Or.inr (by rw [← hv, hall w hw])

theorem mem_roadWrites (room : Room) (s : Structure) (hs : s ∈ room.structures)
    (hr : s.structureType = "road") : (s.x, s.y, (1 : Nat)) ∈ roadWrites room :=
  List.mem_filterMap.mpr ⟨s, hs, by rw [if_pos hr]⟩

theorem roadWrites_elim (room : Room) (w : Int × Int × Nat)
    (hw : w ∈ roadWrites room) :
    ∃ s ∈ room.structures, s.structureType = "road" ∧ w = (s.x, s.y, 1) := by
  obtain ⟨s, hs, he⟩ := List.mem_filterMap.mp hw
  by_cases hr : s.structureType = "road"
  · rw [if_pos hr] at he
    exact ⟨s, hs, hr, by injection he with h2; rw [← h2]⟩
  · rw [if_neg hr] at he
    cases he

theorem mem_impassibleWrites (room : Room) (s : Structure)
    (hs : s ∈ room.structures) (hr : ¬ s.structureType = "road")
    (hnw : s.isWalkable = false) :
    (s.x, s.y, (255 : Nat)) ∈ impassibleStructureWrites room :=
  List.mem_filterMap.mpr ⟨s, hs, by rw [if_neg hr, hnw]; rfl⟩

theorem impassibleWrites_elim (room : Room) (w : Int × Int × Nat)
    (hw : w ∈ impassibleStructureWrites room) :
    ∃ s ∈ room.structures, ¬ s.structureType = "road" ∧ s.isWalkable = false
      ∧ w = (s.x, s.y, 255) := by
  obtain ⟨s, hs, he⟩ := List.mem_filterMap.mp hw
  by_cases hr : s.structureType = "road"
  · rw [if_pos hr] at he; cases he
  · rw [if_neg hr] at he
    cases hnw : s.isWalkable with
    | true => rw [hnw] at he; simp at he
    | false =>
      rw [hnw] at he
      simp only [Bool.false_eq_true, if_false] at he
      exact ⟨s, hs, hr, hnw, by injection he with h2; rw [← h2]⟩

theorem siteWrites_elim (room : Room) (w : Int × Int × Nat)
    (hw : w ∈ siteWrites room) :
    ∃ c ∈ room.constructionSites, c.my = true ∧ c.isWalkable = false
      ∧ w = (c.x, c.y, 255) := by
  obtain ⟨c, hc, he⟩ := List.mem_filterMap.mp hw
  by_cases hcond : c.my ∧ ¬c.isWalkable
  · rw [if_pos hcond] at he
    exact ⟨c, hc, hcond.1, by simpa using hcond.2, by injection he with h2; rw [← h2]⟩
  · rw [if_neg hcond] at he
    cases he

theorem impassibleWrites_val (room : Room) :
    ∀ w ∈ impassibleStructureWrites room, w.2.2 = 255 := by
  intro w hw
  obtain ⟨s, _, _, _, he⟩ := impassibleWrites_elim room w hw
  rw [he]

theorem siteWrites_val (room : Room) : ∀ w ∈ siteWrites room, w.2.2 = 255 := by
  intro w hw
  obtain ⟨c, _, _, _, he⟩ := siteWrites_elim room w hw
  rw [he]

theorem roadWrites_val (room : Room) : ∀ w ∈ roadWrites room, w.2.2 = 1 := by
  intro w hw
  obtain ⟨s, _, _, he⟩ := roadWrites_elim room w hw
  rw [he]

/-- An empty room and an all-wall terrain for the C2 counterexample. -/
def roomEmpty : Room := ⟨"W1N1", [], [], [], []⟩

def envAllWall : Env := { envBase with terrain := fun _ _ _ => .wall }

/-- C2 (counterexample): getDefaultMatrix never consults terrain, so a wall tile
    with no structure keeps matrix cost 0 (terrain default), not 255. -/
theorem defaultMatrix_wall_counterexample :
    envAllWall.terrain "W1N1" 10 10 = .wall
    ∧ defaultMatrixGrid roomEmpty 10 10 = 0
    ∧ (0 : Nat) ≠ 255 :=
  ⟨rfl, rfl, by decide⟩

/-- C2 (amended): in the default CostMatrix, every tile occupied by a non-walkable
    (non-road) structure has cost 255; every road tile has cost 1 when no other
    modifier applies; and tiles with no structure or site -- wall terrain
    included -- are left at cost 0, the "unset, use terrain default" value, so a
    wall is never given a finite passable cost by the matrix itself. -/
theorem defaultMatrix_costs (room : Room) (x y : Int) (hb : inBounds x y) :
    ((∃ s ∈ room.structures, s.x = x ∧ s.y = y ∧ ¬ s.structureType = "road"
        ∧ s.isWalkable = false) → defaultMatrixGrid room x y = 255)
    ∧ ((∃ s ∈ room.structures, s.x = x ∧ s.y = y ∧ s.structureType = "road") →
        (∀ s ∈ room.structures, s.x = x → s.y = y →
          s.structureType = "road" ∨ s.isWalkable = true) →
        (∀ c ∈ room.constructionSites, c.x = x → c.y = y →
          ¬(c.my = true ∧ c.isWalkable = false)) →
        defaultMatrixGrid room x y = 1)
    ∧ ((∀ s ∈ room.structures, ¬(s.x = x ∧ s.y = y)) →
        (∀ c ∈ room.constructionSites, ¬(c.x = x ∧ c.y = y)) →
        defaultMatrixGrid room x y = 0) := by
  have hgrid : defaultMatrixGrid room x y =
      (match lastHit x y (roadWrites room ++ impassibleStructureWrites room
          ++ siteWrites room) with
       | none => (0 : Nat)
       | some v => min v 255) := by
    unfold defaultMatrixGrid
    rw [applyWrites_spec x y hb]
    rfl
  have happ : lastHit x y (roadWrites room ++ impassibleStructureWrites room
      ++ siteWrites room)
      = (lastHit x y (siteWrites room)).or
          ((lastHit x y (impassibleStructureWrites room)).or
            (lastHit x y (roadWrites room))) := by
    rw [lastHit_append, lastHit_append]
  refine ⟨?_, ?_, ?_⟩
  · rintro ⟨s, hs, hx, hy, hroad, hwalk⟩
    have hmem := mem_impassibleWrites room s hs hroad hwalk
    have hsome := lastHit_isSome x y (impassibleStructureWrites room)
      ⟨(s.x, s.y, 255), hmem, by simp [hx, hy]⟩
    have hI : lastHit x y (impassibleStructureWrites room) = some 255 := by
      rcases lastHit_of_const x y 255 (impassibleStructureWrites room)
          (impassibleWrites_val room) with h | h
      · rw [h] at hsome; cases hsome
      · exact h
    have hS := lastHit_of_const x y 255 (siteWrites room) (siteWrites_val room)
    rw [hgrid, happ, hI]
    rcases hS with h | h <;> rw [h] <;> rfl
  · rintro ⟨s, hs, hx, hy, hroad⟩ hstr hsite
    have hmem := mem_roadWrites room s hs hroad
    have hsome := lastHit_isSome x y (roadWrites room)
      ⟨(s.x, s.y, 1), hmem, by simp [hx, hy]⟩
    have hR : lastHit x y (roadWrites room) = some 1 := by
      rcases lastHit_of_const x y 1 (roadWrites room) (roadWrites_val room) with h | h
      · rw [h] at hsome; cases hsome
      · exact h
    have hI : lastHit x y (impassibleStructureWrites room) = none := by
      apply lastHit_none
      intro w hw
      obtain ⟨s2, hs2, hr2, hw2, he2⟩ := impassibleWrites_elim room w hw
      rw [he2]
      rintro ⟨hex, hey⟩
      rcases hstr s2 hs2 hex hey with h | h
      · exact hr2 h
      · rw [h] at hw2; cases hw2
    have hS : lastHit x y (siteWrites room) = none := by
      apply lastHit_none
      intro w hw
      obtain ⟨c, hc, hmy, hwk, he2⟩ := siteWrites_elim room w hw
      rw [he2]
      rintro ⟨hex, hey⟩
      exact hsite c hc hex hey ⟨hmy, hwk⟩
    rw [hgrid, happ, hI, hR, hS]
    rfl
  · intro hstr hsite
    have hR : lastHit x y (roadWrites room) = none := by
      apply lastHit_none
      intro w hw
      obtain ⟨s, hs, _, he⟩ := roadWrites_elim room w hw
      rw [he]
      rintro ⟨hex, hey⟩
      exact hstr s hs ⟨hex, hey⟩
    have hI : lastHit x y (impassibleStructureWrites room) = none := by
      apply lastHit_none
      intro w hw
      obtain ⟨s, hs, _, _, he⟩ := impassibleWrites_elim room w hw
      rw [he]
      rintro ⟨hex, hey⟩
      exact hstr s hs ⟨hex, hey⟩
    have hS : lastHit x y (siteWrites room) = none := by
      apply lastHit_none
      intro w hw
      obtain ⟨c, hc, _, _, he⟩ := siteWrites_elim room w hw
      rw [he]
      rintro ⟨hex, hey⟩
      exact hsite c hc ⟨hex, hey⟩
    rw [hgrid, happ, hR, hI, hS]
    rfl

/-- A small room witnessing all three clauses of the amended C2. -/
def roomRoads : Room :=
  ⟨"W1N1", [⟨5, 5, "road", true⟩, ⟨6, 6, "spawn", false⟩], [], [], []⟩

theorem defaultMatrix_costs_witness :
    defaultMatrixGrid roomRoads 6 6 = 255
    ∧ defaultMatrixGrid roomRoads 5 5 = 1
    ∧ defaultMatrixGrid roomRoads 7 7 = 0 :=
  ⟨(defaultMatrix_costs roomRoads 6 6 (by decide)).1
      ⟨⟨6, 6, "spawn", false⟩, by decide, by decide, by decide, by decide, by decide⟩,
   (defaultMatrix_costs roomRoads 5 5 (by decide)).2.1
      ⟨⟨5, 5, "road", true⟩, by decide, by decide, by decide, by decide⟩
      (by decide) (by decide),
   (defaultMatrix_costs roomRoads 7 7 (by decide)).2.2 (by decide) (by decide)⟩

-- C6 --------------------------------------------------------------------------

theorem kiteOffsets_bound : ∀ o ∈ kiteOffsets, o.1.natAbs ≤ 3 ∧ o.2.natAbs ≤ 3 := by
  decide

theorem mem_kiteOffsets_of (dx dy : Int) (h1 : dx.natAbs ≤ 3) (h2 : dy.natAbs ≤ 3) :
    (dx, dy) ∈ kiteOffsets := by
  have hx1 : -3 ≤ dx := by omega
  have hx2 : dx ≤ 3 := by omega
  have hy1 : -3 ≤ dy := by omega
  have hy2 : dy ≤ 3 := by omega
  interval_cases dx <;> interval_cases dy <;> decide

theorem kiteOffsets_nodup : kiteOffsets.Nodup := by decide

theorem kiteFold_untouched (cx cy x y : Int) :
    ∀ (L : List (Int × Int)) (m : Grid),
      (∀ o ∈ L, ¬(x = cx + o.1 ∧ y = cy + o.2)) →
      kiteFold cx cy L m x y = m x y := by
  intro L
  induction L with
  | nil => intro m _; rfl
  | cons o L ih =>
    intro m h
    show kiteFold cx cy L _ x y = m x y
    rw [ih _ (fun o2 ho2 => h o2 (by simp [ho2]))]
    exact cmSet_other _ _ _ _ x y (h o (by simp))

theorem kiteFold_hit (cx cy dx dy : Int) (hb : inBounds (cx + dx) (cy + dy)) :
    ∀ (L : List (Int × Int)), L.Nodup → (dx, dy) ∈ L →
      ∀ m : Grid,
        kiteFold cx cy L m (cx + dx) (cy + dy)
          = min (m (cx + dx) (cy + dy) + (40 - 10 * max dx.natAbs dy.natAbs)) 255 := by
  intro L
  induction L with
  | nil => intro _ hmem; simp at hmem
  | cons o L ih =>
    intro hnd hmem m
    by_cases ho : o = (dx, dy)
    · subst ho
      show kiteFold cx cy L (cmSet m (cx + dx) (cy + dy) _) (cx + dx) (cy + dy) = _
      rw [kiteFold_untouched cx cy (cx + dx) (cy + dy) L _ ?side]
      · rw [cmSet_self _ _ _ _ hb]
        rfl
      case side =>
        intro o2 ho2
        rintro ⟨hex, hey⟩
        have : o2 = (dx, dy) := by
          have e1 : o2.1 = dx := by omega
          have e2 : o2.2 = dy := by omega
          rw [← e1, ← e2]
        rw [this] at ho2
        exact (List.nodup_cons.mp hnd).1 ho2
    · have hmem2 : (dx, dy) ∈ L := by
        rcases List.mem_cons.mp hmem with h | h
        · exact absurd h.symm ho
        · exact h
      show kiteFold cx cy L (cmSet m (cx + o.1) (cy + o.2) _) (cx + dx) (cy + dy) = _
      rw [ih (List.nodup_cons.mp hnd).2 hmem2]
      have hcell : cmSet m (cx + o.1) (cy + o.2)
          (cmGet m (cx + o.1) (cy + o.2) + (40 - 10 * max o.1.natAbs o.2.natAbs))
          (cx + dx) (cy + dy) = m (cx + dx) (cy + dy) := by
        apply cmSet_other
        rintro ⟨hex, hey⟩
        apply ho
        have e1 : o.1 = dx := by omega
        have e2 : o.2 = dy := by omega
        rw [← e1, ← e2]
      rw [hcell]

/-- Every grid built by writes stays within the byte range. -/
def gridBounded (g : Grid) : Prop := ∀ x y : Int, g x y ≤ 255

theorem cmSet_bounded (g : Grid) (x0 y0 : Int) (v : Nat) (h : gridBounded g) :
    gridBounded (cmSet g x0 y0 v) := by
  intro x y
  unfold cmSet
  by_cases hc : x = x0 ∧ y = y0 ∧ inBounds x0 y0
  · rw [if_pos hc]; omega
  · rw [if_neg hc]; exact h x y

theorem applyWrites_bounded (ws : List (Int × Int × Nat)) :
    ∀ g : Grid, gridBounded g → gridBounded (applyWrites ws g) := by
  induction ws with
  | nil => intro g h; exact h
  | cons w ws ih =>
    intro g h
    exact ih _ (cmSet_bounded _ _ _ _ h)

theorem kiteFold_bounded (cx cy : Int) (L : List (Int × Int)) :
    ∀ g : Grid, gridBounded g → gridBounded (kiteFold cx cy L g) := by
  induction L with
  | nil => intro g h; exact h
  | cons o L ih =>
    intro g h
    exact ih _ (cmSet_bounded _ _ _ _ h)

theorem emptyGrid_bounded : gridBounded emptyGrid := fun _ _ => by
  unfold emptyGrid; omega

theorem creepMatrixGrid_bounded (room : Room) : gridBounded (creepMatrixGrid room) :=
  applyWrites_bounded _ _ (applyWrites_bounded _ _ emptyGrid_bounded)

theorem creepWrites_val (room : Room) : ∀ w ∈ creepWrites room, w.2.2 = 255 := by
  intro w hw
  obtain ⟨c, _, he⟩ := List.mem_map.mp hw
  rw [← he]

/-- A creep's own tile is impassable (255) in the creep matrix. -/
theorem creepMatrixGrid_creep (room : Room) (c : Creep) (hc : c ∈ room.creeps)
    (hb : inBounds c.x c.y) : creepMatrixGrid room c.x c.y = 255 := by
  unfold creepMatrixGrid
  rw [applyWrites_const c.x c.y hb (creepWrites room) _ 255
    ⟨(c.x, c.y, 255), List.mem_map.mpr ⟨c, hc, rfl⟩, rfl, rfl⟩
    (fun w hw _ _ => creepWrites_val room w hw)]
  rfl

/-- An otherwise empty room holding one hostile ranged attacker at the center. -/
def roomKite : Room := ⟨"W1N1", [], [], [⟨25, 25, true, 1, 0⟩], []⟩

/-- C6 (counterexample): the hostile's own tile already holds 255 in the
    agent-avoiding base matrix, and CostMatrix.set clamps at 255, so the kiting
    cost there is 255, not base + 40. -/
theorem kitingMatrix_counterexample :
    kitingMatrixGrid roomKite 25 25 = 255
    ∧ creepMatrixGrid roomKite 25 25 = 255
    ∧ (255 : Nat) ≠ 255 + 40 :=
  ⟨by decide, by decide, by decide⟩

/-- C6 (amended): for a single hostile combatant, each in-bounds tile within
    radius 3 gets cost min(base + 40 - 10 * max(|dx|, |dy|), 255) (the clamped
    increment), tiles outside radius 3 are unmodified, cost at offset (0, 0) is
    255 (the hostile's own tile is impassable in the base, ≥ every other cost),
    and cost at offset (3, 3) ≥ cost at offset (4, 4) whenever the base cost at
    (4, 4) is at most the base at (3, 3) plus 10 (in particular on default
    tiles). -/
theorem kitingMatrix_penalty (room : Room) (c : Creep)
    (hs : room.hostiles.filter
        (fun k => 0 < k.attackParts ∨ 0 < k.rangedAttackParts) = [c]) :
    (∀ dx dy : Int, dx.natAbs ≤ 3 → dy.natAbs ≤ 3 → inBounds (c.x + dx) (c.y + dy) →
      kitingMatrixGrid room (c.x + dx) (c.y + dy)
        = min (creepMatrixGrid room (c.x + dx) (c.y + dy)
            + (40 - 10 * max dx.natAbs dy.natAbs)) 255)
    ∧ (∀ x y : Int, ¬((x - c.x).natAbs ≤ 3 ∧ (y - c.y).natAbs ≤ 3) →
      kitingMatrixGrid room x y = creepMatrixGrid room x y)
    ∧ (inBounds c.x c.y → kitingMatrixGrid room c.x c.y = 255)
    ∧ (inBounds c.x c.y → ∀ x y : Int, kitingMatrixGrid room x y
        ≤ kitingMatrixGrid room c.x c.y)
    ∧ (inBounds (c.x + 3) (c.y + 3) →
        creepMatrixGrid room (c.x + 4) (c.y + 4)
          ≤ creepMatrixGrid room (c.x + 3) (c.y + 3) + 10 →
        kitingMatrixGrid room (c.x + 4) (c.y + 4)
          ≤ kitingMatrixGrid room (c.x + 3) (c.y + 3)) := by
  have hck : c ∈ room.creeps := by
    have h1 : c ∈ room.hostiles.filter
        (fun k => 0 < k.attackParts ∨ 0 < k.rangedAttackParts) := by
      rw [hs]; simp
    have h2 : c ∈ room.hostiles := (List.mem_filter.mp h1).1
    exact (List.mem_filter.mp h2).1
  have hkit : kitingMatrixGrid room = applyKitePenalty c.x c.y (creepMatrixGrid room) := by
    unfold kitingMatrixGrid
    rw [hs]
    rfl
  have hpart1 : ∀ dx dy : Int, dx.natAbs ≤ 3 → dy.natAbs ≤ 3 →
      inBounds (c.x + dx) (c.y + dy) →
      kitingMatrixGrid room (c.x + dx) (c.y + dy)
        = min (creepMatrixGrid room (c.x + dx) (c.y + dy)
            + (40 - 10 * max dx.natAbs dy.natAbs)) 255 := by
    intro dx dy hdx hdy hb
    rw [hkit]
    exact kiteFold_hit c.x c.y dx dy hb kiteOffsets kiteOffsets_nodup
      (mem_kiteOffsets_of dx dy hdx hdy) (creepMatrixGrid room)
  have hpart2 : ∀ x y : Int, ¬((x - c.x).natAbs ≤ 3 ∧ (y - c.y).natAbs ≤ 3) →
      kitingMatrixGrid room x y = creepMatrixGrid room x y := by
    intro x y h
    rw [hkit]
    apply kiteFold_untouched
    intro o ho
    rintro ⟨hex, hey⟩
    have hbnd := kiteOffsets_bound o ho
    exact h (by constructor <;> omega)
  have hpart3 : inBounds c.x c.y → kitingMatrixGrid room c.x c.y = 255 := by
    intro hb
    have h1 := hpart1 0 0 (by decide) (by decide) (by simpa using hb)
    simp only [add_zero] at h1
    rw [h1, creepMatrixGrid_creep room c hck hb]
    decide
  refine ⟨hpart1, hpart2, hpart3, ?_, ?_⟩
  · intro hb x y
    rw [hpart3 hb, hkit]
    exact kiteFold_bounded c.x c.y kiteOffsets _ (creepMatrixGrid_bounded room) x y
  · intro hb hbase
    have h33 := hpart1 3 3 (by decide) (by decide) hb
    have h44 : kitingMatrixGrid room (c.x + 4) (c.y + 4)
        = creepMatrixGrid room (c.x + 4) (c.y + 4) := by
      apply hpart2
      rintro ⟨hax, hay⟩
      omega
    rw [h33, h44]
    have hle := creepMatrixGrid_bounded room (c.x + 4) (c.y + 4)
    have : (40 - 10 * max (3 : Int).natAbs (3 : Int).natAbs) = 10 := by decide
    rw [this]
    omega

theorem kitingMatrix_penalty_witness :
    kitingMatrixGrid roomKite 25 25 = 255
    ∧ kitingMatrixGrid roomKite 28 28
        = min (creepMatrixGrid roomKite 28 28 + 10) 255
    ∧ kitingMatrixGrid roomKite 29 29 ≤ kitingMatrixGrid roomKite 28 28 := by
  have hs : roomKite.hostiles.filter
      (fun k => 0 < k.attackParts ∨ 0 < k.rangedAttackParts)
      = [⟨25, 25, true, 1, 0⟩] := by decide
  have hthm := kitingMatrix_penalty roomKite ⟨25, 25, true, 1, 0⟩ hs
  refine ⟨hthm.2.2.1 (by decide), ?_, hthm.2.2.2.2 (by decide) (by decide)⟩
  have h1 := hthm.1 3 3 (by decide) (by decide) (by decide)
  have e : (40 - 10 * max (3 : Int).natAbs (3 : Int).natAbs) = 10 := by decide
  rw [e] at h1
  exact h1

-- C3 and C5 ------------------------------------------------------------------

def posA : RoomPosition := ⟨1, 1, "W1N1"⟩

def posB : RoomPosition := ⟨2, 2, "W1N1"⟩

def memNil : PathingMem := ⟨[], []⟩

/-- An oracle that always reports an incomplete search carrying a partial path. -/
def envIncomplete : Env := { envBase with pfSearch := fun _ => ⟨[posB], true⟩ }

/-- An oracle whose path length depends on the direction of the query. -/
def envAsym : Env :=
  { envBase with pfSearch := fun q =>
      if q.origin = posA then ⟨[posB, posB], false⟩ else ⟨[posB], false⟩ }

/-- C3 (counterexample): weightedDistance stores a memo entry (the weight of the
    partial path) even though its underlying path search is incomplete. -/
theorem weightedDistance_stores_incomplete_counterexample :
    (findPath envIncomplete posA posB { range := some 1 }).incomplete = true
    ∧ (weightedDistance envIncomplete memNil posA posB).2 ≠ memNil
    ∧ (weightedDistance envIncomplete memNil posA posB).2.weightedDistances
        = [(("W1N1:1:1", "W1N1:2:2"), 1)] := by
  refine ⟨by decide, by decide, by decide⟩

/-- C3 (amended): distance writes its memo entry only when the underlying
    shortest-path search completed and returns none otherwise (on an empty
    slot); weightedDistance, by contrast, stores the weight of whatever partial
    path the search produced, with no completeness check. -/
theorem distance_memo_incomplete (env : Env) (mem : PathingMem) (a b : RoomPosition) :
    ((findShortestPath env a b defaultMoveOptions).incomplete = true →
      (distance env mem a b).2 = mem
      ∧ (lookupD mem.distances (sortedNames a b) = none →
          (distance env mem a b).1 = none))
    ∧ (lookupD mem.weightedDistances
          (posName (orderedPair a b).1, posName (orderedPair a b).2) = none →
        (weightedDistance env mem a b).2.weightedDistances
          = insertD mem.weightedDistances
              (posName (orderedPair a b).1, posName (orderedPair a b).2)
              (calculatePathWeight env (orderedPair a b).1 (orderedPair a b).2
                defaultMoveOptions)) := by
  constructor
  · intro hinc
    by_cases hg : lookupD mem.distances (sortedNames a b) = none
        ∨ lookupD mem.distances (sortedNames a b) = some 0
    · have hr : (findShortestPath env a b defaultMoveOptions).incomplete = false
          → False := by
        rw [hinc]; intro h; cases h
      have e : distance env mem a b
          = (lookupD mem.distances (sortedNames a b), mem) := by
        unfold distance
        rw [if_pos hg, if_neg hr]
      rw [e]
      exact ⟨rfl, fun h0 => h0⟩
    · have e : distance env mem a b
          = (lookupD mem.distances (sortedNames a b), mem) := by
        unfold distance
        rw [if_neg hg]
      rw [e]
      exact ⟨rfl, fun h0 => h0⟩
  · intro hnone
    have hg : lookupD mem.weightedDistances
          (posName (orderedPair a b).1, posName (orderedPair a b).2) = none
        ∨ lookupD mem.weightedDistances
          (posName (orderedPair a b).1, posName (orderedPair a b).2) = some 0 :=
      Or.inl hnone
    unfold weightedDistance
    rw [if_pos hg]

theorem distance_memo_incomplete_witness :
    ((distance envIncomplete memNil posA posB).2 = memNil
      ∧ (distance envIncomplete memNil posA posB).1 = none)
    ∧ (weightedDistance envIncomplete memNil posA posB).2.weightedDistances
        = insertD memNil.weightedDistances
            (posName (orderedPair posA posB).1, posName (orderedPair posA posB).2)
            (calculatePathWeight envIncomplete
              (orderedPair posA posB).1 (orderedPair posA posB).2
              defaultMoveOptions) := by
  have h := distance_memo_incomplete envIncomplete memNil posA posB
  exact ⟨⟨(h.1 (by decide)).1, (h.1 (by decide)).2 (by decide)⟩, h.2 (by decide)⟩

theorem charListLt_asymm :
    ∀ l1 l2, charListLt l1 l2 = true → charListLt l2 l1 = false := by
  intro l1
  induction l1 with
  | nil =>
    intro l2 h
    cases l2 with
    | nil => exact absurd h (by simp [charListLt])
    | cons b bs => simp [charListLt]
  | cons a as ih =>
    intro l2 h
    cases l2 with
    | nil => exact absurd h (by simp [charListLt])
    | cons b bs =>
      by_cases hab : a < b
      · simp [charListLt, hab, lt_asymm hab]
      · by_cases hba : b < a
        · simp [charListLt, hab, hba] at h
        · simp [charListLt, hab, hba] at h ⊢
          exact ih bs h

theorem charListLt_conn :
    ∀ l1 l2, charListLt l1 l2 = false → charListLt l2 l1 = false → l1 = l2 := by
  intro l1
  induction l1 with
  | nil =>
    intro l2 h1 _
    cases l2 with
    | nil => rfl
    | cons b bs => simp [charListLt] at h1
  | cons a as ih =>
    intro l2 h1 h2
    cases l2 with
    | nil => simp [charListLt] at h2
    | cons b bs =>
      by_cases hab : a < b
      · simp [charListLt, hab] at h1
      · by_cases hba : b < a
        · simp [charListLt, hba] at h2
        · have he : a = b := le_antisymm (le_of_not_lt hba) (le_of_not_lt hab)
          simp [charListLt, hab, hba] at h1 h2
          rw [he, ih bs h1 h2]

theorem strLt_asymm (a b : String) (h : strLt a b = true) : strLt b a = false :=
  charListLt_asymm _ _ h

theorem strEq_of_not_lt (a b : String) (h1 : strLt a b = false)
    (h2 : strLt b a = false) : a = b := by
  have hd := charListLt_conn a.data b.data h1 h2
  cases a
  cases b
  exact congrArg String.mk hd

theorem sortedNames_comm (a b : RoomPosition) : sortedNames a b = sortedNames b a := by
  unfold sortedNames
  cases hba : strLt (posName b) (posName a) with
  | true =>
    have hab : strLt (posName a) (posName b) = false := strLt_asymm _ _ hba
    rw [show strLe (posName a) (posName b) = false from by simp [strLe, hba]]
    rw [show strLe (posName b) (posName a) = true from by simp [strLe, hab]]
    simp
  | false =>
    cases hab : strLt (posName a) (posName b) with
    | true =>
      rw [show strLe (posName a) (posName b) = true from by simp [strLe, hba]]
      rw [show strLe (posName b) (posName a) = false from by simp [strLe, hab]]
      simp
    | false =>
      rw [strEq_of_not_lt (posName a) (posName b) hab hba]

theorem orderedPair_comm (a b : RoomPosition) (hinj : posName a = posName b → a = b) :
    orderedPair a b = orderedPair b a := by
  unfold orderedPair
  cases hab : strLt (posName a) (posName b) with
  | true =>
    rw [show strLt (posName b) (posName a) = false from strLt_asymm _ _ hab]
    simp
  | false =>
    cases hba : strLt (posName b) (posName a) with
    | true => simp
    | false =>
      rw [hinj (strEq_of_not_lt (posName a) (posName b) hab hba)]

/-- C5 (counterexample): on a cold cache, distance issues the search in the given
    argument order, so an oracle whose result depends on the direction makes
    distance(a,b) and distance(b,a) differ. -/
theorem distance_symmetry_counterexample :
    (distance envAsym memNil posA posB).1 = some 2
    ∧ (distance envAsym memNil posB posA).1 = some 1
    ∧ distance envAsym memNil posA posB ≠ distance envAsym memNil posB posA := by
  refine ⟨by decide, by decide, by decide⟩

/-- C5 (amended): weightedDistance is symmetric in its arguments from any memo
    state (it reorders the pair by name before searching); distance is symmetric
    whenever the sorted-name memo slot is already filled with a nonzero length —
    on a cold slot its search runs in argument order, so symmetry there needs a
    direction-symmetric oracle. Position names are assumed to identify positions. -/
theorem distance_symmetry (env : Env) (mem : PathingMem) (a b : RoomPosition)
    (hinj : posName a = posName b → a = b) :
    weightedDistance env mem a b = weightedDistance env mem b a
    ∧ (∀ v, lookupD mem.distances (sortedNames a b) = some v → v ≠ 0 →
        distance env mem a b = (some v, mem) ∧ distance env mem b a = (some v, mem)) := by
  constructor
  · unfold weightedDistance
    rw [orderedPair_comm a b hinj]
  · intro v hv hv0
    have hslot : ∀ c d : RoomPosition, sortedNames c d = sortedNames a b →
        distance env mem c d = (some v, mem) := by
      intro c d hcd
      have hg : ¬(lookupD mem.distances (sortedNames c d) = none
          ∨ lookupD mem.distances (sortedNames c d) = some 0) := by
        rw [hcd, hv]
        rintro (h | h)
        · cases h
        · exact hv0 (by injection h)
      unfold distance
      rw [if_neg hg, hcd, hv]
    exact ⟨hslot a b rfl, hslot b a (sortedNames_comm b a)⟩

def memC5 : PathingMem := ⟨[(("W1N1:1:1", "W1N1:2:2"), 5)], []⟩

theorem distance_symmetry_witness :
    weightedDistance envBase memC5 posA posB = weightedDistance envBase memC5 posB posA
    ∧ distance envBase memC5 posA posB = (some 5, memC5)
    ∧ distance envBase memC5 posB posA = (some 5, memC5) := by
  have h := distance_symmetry envBase memC5 posA posB (by decide)
  exact ⟨h.1, (h.2 5 (by decide) (by decide)).1, (h.2 5 (by decide) (by decide)).2⟩

-- C7 --------------------------------------------------------------------------

theorem isReachableMatrix_writes_val (obstacles : List PosLike) :
    ∀ w ∈ obstacles.map (fun ob => (ob.toPos.x, ob.toPos.y, (254 : Nat))),
      w.2.2 = 254 := by
  intro w hw
  obtain ⟨ob, _, he⟩ := List.mem_map.mp hw
  rw [← he]

/-- C7: isReachable returns true exactly when the endpoints share a room, the
    single-room search completed, and no tile of the returned path has seeded
    matrix cost above 100; the cross-room error is logged exactly when the rooms
    differ; and every in-bounds listed obstacle tile is seeded with the soft
    obstacle cost 254 (so a path forced through an obstacle is rejected even if
    the oracle reports the search complete). -/
theorem isReachable_spec (env : Env) (startPos endPos : RoomPosition)
    (obstacles : List PosLike) (opts : MoveOptions) :
    ((isReachable env startPos endPos obstacles opts).1 = true ↔
      (startPos.roomName = endPos.roomName
        ∧ (isReachableSearch env startPos endPos obstacles opts).incomplete = false
        ∧ ∀ p ∈ (isReachableSearch env startPos endPos obstacles opts).path,
            cmGet (isReachableMatrix obstacles) p.x p.y ≤ 100))
    ∧ ((isReachable env startPos endPos obstacles opts).2 = true ↔
        startPos.roomName ≠ endPos.roomName)
    ∧ (∀ ob ∈ obstacles, inBounds ob.toPos.x ob.toPos.y →
        cmGet (isReachableMatrix obstacles) ob.toPos.x ob.toPos.y = 254) := by
  refine ⟨?_, ?_, ?_⟩
  · by_cases hroom : startPos.roomName ≠ endPos.roomName
    · have e : isReachable env startPos endPos obstacles opts = (false, true) := by
        unfold isReachable
        rw [if_pos hroom]
      rw [e]
      simp only [Bool.false_eq_true, false_iff]
      rintro ⟨h, _⟩
      exact hroom h
    · have hroom2 : startPos.roomName = endPos.roomName := not_not.mp hroom
      by_cases hinc : (isReachableSearch env startPos endPos obstacles opts).incomplete
          = true
      · have e : isReachable env startPos endPos obstacles opts = (false, false) := by
          unfold isReachable
          rw [if_neg hroom, if_pos hinc]
        rw [e]
        simp only [Bool.false_eq_true, false_iff]
        rintro ⟨_, h2, _⟩
        rw [hinc] at h2
        cases h2
      · have e : isReachable env startPos endPos obstacles opts
            = ((isReachableSearch env startPos endPos obstacles opts).path.all
                (fun p => decide (cmGet (isReachableMatrix obstacles) p.x p.y ≤ 100)),
               false) := by
          unfold isReachable
          rw [if_neg hroom, if_neg hinc]
        rw [e]
        simp only [List.all_eq_true, decide_eq_true_eq]
        constructor
        · intro h
          exact ⟨hroom2, by simpa using hinc, h⟩
        · rintro ⟨_, _, h⟩
          exact h
  · by_cases hroom : startPos.roomName ≠ endPos.roomName
    · have e : isReachable env startPos endPos obstacles opts = (false, true) := by
        unfold isReachable
        rw [if_pos hroom]
      rw [e]
      simp [hroom]
    · have e2 : (isReachable env startPos endPos obstacles opts).2 = false := by
        unfold isReachable
        rw [if_neg hroom]
        by_cases hinc : (isReachableSearch env startPos endPos obstacles opts).incomplete
            = true
        · rw [if_pos hinc]
        · rw [if_neg hinc]
      rw [e2]
      simp [hroom]
  · intro ob hob hb
    unfold isReachableMatrix
    show applyWrites _ emptyGrid ob.toPos.x ob.toPos.y = 254
    rw [applyWrites_const ob.toPos.x ob.toPos.y hb _ _ 254
      ⟨(ob.toPos.x, ob.toPos.y, 254), List.mem_map.mpr ⟨ob, hob, rfl⟩, rfl, rfl⟩
      (fun w hw _ _ => isReachableMatrix_writes_val obstacles w hw)]
    rfl

/-- An oracle that reports a complete path running through tile (3, 3). -/
def envThrough : Env :=
  { envBase with pfSearch := fun _ => ⟨[⟨3, 3, "W1N1"⟩], false⟩ }

theorem isReachable_spec_witness :
    (isReachable envThrough ⟨1, 1, "W1N1"⟩ ⟨5, 5, "W1N1"⟩ [.pos ⟨3, 3, "W1N1"⟩]
        defaultMoveOptions).1 = false
    ∧ (isReachable envThrough ⟨1, 1, "W1N1"⟩ ⟨5, 5, "W1N2"⟩ [] defaultMoveOptions).2
        = true
    ∧ cmGet (isReachableMatrix [.pos ⟨3, 3, "W1N1"⟩]) 3 3 = 254 := by
  have h1 := isReachable_spec envThrough ⟨1, 1, "W1N1"⟩ ⟨5, 5, "W1N1"⟩
    [.pos ⟨3, 3, "W1N1"⟩] defaultMoveOptions
  have h2 := isReachable_spec envThrough ⟨1, 1, "W1N1"⟩ ⟨5, 5, "W1N2"⟩
    [] defaultMoveOptions
  refine ⟨?_, h2.2.1.mpr (by decide), h1.2.2 (.pos ⟨3, 3, "W1N1"⟩) (by decide) (by decide)⟩
  cases hval : (isReachable envThrough ⟨1, 1, "W1N1"⟩ ⟨5, 5, "W1N1"⟩
      [.pos ⟨3, 3, "W1N1"⟩] defaultMoveOptions).1 with
  | false => rfl
  | true =>
    obtain ⟨_, _, hall⟩ := h1.1.mp hval
    have := hall ⟨3, 3, "W1N1"⟩ (by decide)
    rw [show cmGet (isReachableMatrix [.pos ⟨3, 3, "W1N1"⟩]) 3 3 = 254 from
      h1.2.2 (.pos ⟨3, 3, "W1N1"⟩) (by decide) (by decide)] at this
    omega

-- C8 --------------------------------------------------------------------------

/-- A cache slot is valid: if set, it names a live ref holding grid g. -/
def cacheSlotOK (s : MatState) (slot : Option Nat) (g : Grid) : Prop :=
  ∀ r, slot = some r → r < s.heap.length ∧ readRef s r = g

/-- All four room cache slots hold exactly the pure builds of their variants. -/
def CachesOK (room : Room) (s : MatState) : Prop :=
  cacheSlotOK s s.caches.defaultMatrix (defaultMatrixGrid room)
  ∧ cacheSlotOK s s.caches.directMatrix (directMatrixGrid room)
  ∧ cacheSlotOK s s.caches.creepMatrix (creepMatrixGrid room)
  ∧ cacheSlotOK s s.caches.skMatrix (skMatrixGrid room)

/-- One builder step: caches stay exact, the returned ref is live and holds g,
    and every pre-existing matrix object is untouched. -/
structure StepOK (room : Room) (s : MatState) (p : Nat × MatState) (g : Grid) :
    Prop where
  ok : CachesOK room p.2
  lt : p.1 < p.2.heap.length
  val : readRef p.2 p.1 = g
  mono : s.heap.length ≤ p.2.heap.length
  old : ∀ i, i < s.heap.length → readRef p.2 i = readRef s i

theorem alloc_writeCells_spec (s : MatState) (g0 : Grid) (ws : List (Int × Int × Nat)) :
    (writeCells (alloc s g0).2 (alloc s g0).1 ws).heap.length = s.heap.length + 1
    ∧ (writeCells (alloc s g0).2 (alloc s g0).1 ws).caches = s.caches
    ∧ readRef (writeCells (alloc s g0).2 (alloc s g0).1 ws) (alloc s g0).1
        = applyWrites ws g0
    ∧ ∀ i, i < s.heap.length →
        readRef (writeCells (alloc s g0).2 (alloc s g0).1 ws) i = readRef s i := by
  have hlen2 : (alloc s g0).2.heap.length = s.heap.length + 1 := by
    show (s.heap ++ [g0]).length = s.heap.length + 1
    simp
  refine ⟨?_, ?_, ?_, ?_⟩
  · rw [writeCells_heap_length, hlen2]
  · rw [writeCells_caches]
    rfl
  · rw [readRef_writeCells_self _ _ _ (by rw [hlen2]; exact Nat.lt_succ_self _)]
    have : readRef (alloc s g0).2 (alloc s g0).1 = g0 := heapRead_append_self s.heap g0
    rw [this]
  · intro i hi
    have hne : i ≠ (alloc s g0).1 := Nat.ne_of_lt hi
    rw [readRef_writeCells_other (alloc s g0).1 i hne ws]
    exact heapRead_append_lt s.heap [g0] i hi

/-- Weaken the starting state of a step: anything reached from s2 is reached
    from an earlier s1 whose objects s2 preserves. -/
theorem StepOK.widen (room : Room) {s1 s2 : MatState} {p : Nat × MatState}
    {g : Grid} (hm : s1.heap.length ≤ s2.heap.length)
    (ho : ∀ i, i < s1.heap.length → readRef s2 i = readRef s1 i)
    (h : StepOK room s2 p g) : StepOK room s1 p g :=
  ⟨h.ok, h.lt, h.val, Nat.le_trans hm h.mono,
   fun i hi => (h.old i (Nat.lt_of_lt_of_le hi hm)).trans (ho i hi)⟩

/-- Allocating a fresh matrix and writing only on it preserves the caches and
    all existing objects. -/
theorem alloc_writeCells_step (room : Room) (s : MatState) (hok : CachesOK room s)
    (g0 : Grid) (ws : List (Int × Int × Nat)) :
    StepOK room s ((alloc s g0).1, writeCells (alloc s g0).2 (alloc s g0).1 ws)
      (applyWrites ws g0) := by
  obtain ⟨hlen, hcac, hval, hold⟩ := alloc_writeCells_spec s g0 ws
  have hcarry : ∀ (slot : Option Nat) (g : Grid), cacheSlotOK s slot g →
      cacheSlotOK (writeCells (alloc s g0).2 (alloc s g0).1 ws) slot g := by
    intro slot g hsl r hr
    obtain ⟨h1, h2⟩ := hsl r hr
    refine ⟨by rw [hlen]; omega, ?_⟩
    rw [hold r h1]
    exact h2
  refine ⟨⟨?_, ?_, ?_, ?_⟩, ?_, ?_, ?_, ?_⟩
  · show cacheSlotOK (writeCells (alloc s g0).2 (alloc s g0).1 ws) _ _
    rw [show (writeCells (alloc s g0).2 (alloc s g0).1 ws).caches = s.caches from hcac]
    exact hcarry _ _ hok.1
  · show cacheSlotOK (writeCells (alloc s g0).2 (alloc s g0).1 ws) _ _
    rw [show (writeCells (alloc s g0).2 (alloc s g0).1 ws).caches = s.caches from hcac]
    exact hcarry _ _ hok.2.1
  · show cacheSlotOK (writeCells (alloc s g0).2 (alloc s g0).1 ws) _ _
    rw [show (writeCells (alloc s g0).2 (alloc s g0).1 ws).caches = s.caches from hcac]
    exact hcarry _ _ hok.2.2.1
  · show cacheSlotOK (writeCells (alloc s g0).2 (alloc s g0).1 ws) _ _
    rw [show (writeCells (alloc s g0).2 (alloc s g0).1 ws).caches = s.caches from hcac]
    exact hcarry _ _ hok.2.2.2
  · show (alloc s g0).1 < (writeCells (alloc s g0).2 (alloc s g0).1 ws).heap.length
    rw [hlen]
    show s.heap.length < s.heap.length + 1
    omega
  · exact hval
  · show s.heap.length ≤ (writeCells (alloc s g0).2 (alloc s g0).1 ws).heap.length
    rw [hlen]
    omega
  · exact hold

/-- Cloning the current result and writing only on the clone. -/
theorem clone_writeCells_step (room : Room) (s : MatState) (q : Nat × MatState)
    (g : Grid) (ws : List (Int × Int × Nat)) (h : StepOK room s q g) :
    StepOK room s
      ((cloneRef q.2 q.1).1,
        writeCells (cloneRef q.2 q.1).2 (cloneRef q.2 q.1).1 ws)
      (applyWrites ws g) := by
  have inner := alloc_writeCells_step room q.2 h.ok (readRef q.2 q.1) ws
  have inner2 : StepOK room q.2
      ((cloneRef q.2 q.1).1,
        writeCells (cloneRef q.2 q.1).2 (cloneRef q.2 q.1).1 ws)
      (applyWrites ws g) := by
    rw [← h.val]
    exact inner
  exact StepOK.widen room h.mono h.old inner2

theorem cloneRef_step (room : Room) (s : MatState) (q : Nat × MatState)
    (g : Grid) (h : StepOK room s q g) : StepOK room s (cloneRef q.2 q.1) g :=
  clone_writeCells_step room s q g [] h

theorem setDefaultCache_step (room : Room) (s : MatState) (p : Nat × MatState)
    (h : StepOK room s p (defaultMatrixGrid room)) :
    StepOK room s
      (p.1, { p.2 with caches := { p.2.caches with defaultMatrix := some p.1 } })
      (defaultMatrixGrid room) := by
  refine ⟨⟨?_, h.ok.2.1, h.ok.2.2.1, h.ok.2.2.2⟩, h.lt, h.val, h.mono, h.old⟩
  intro r hr
  have he : p.1 = r := by injection hr
  exact he ▸ ⟨h.lt, h.val⟩

theorem setDirectCache_step (room : Room) (s : MatState) (p : Nat × MatState)
    (h : StepOK room s p (directMatrixGrid room)) :
    StepOK room s
      (p.1, { p.2 with caches := { p.2.caches with directMatrix := some p.1 } })
      (directMatrixGrid room) := by
  refine ⟨⟨h.ok.1, ?_, h.ok.2.2.1, h.ok.2.2.2⟩, h.lt, h.val, h.mono, h.old⟩
  intro r hr
  have he : p.1 = r := by injection hr
  exact he ▸ ⟨h.lt, h.val⟩

theorem setCreepCache_step (room : Room) (s : MatState) (p : Nat × MatState)
    (h : StepOK room s p (creepMatrixGrid room)) :
    StepOK room s
      (p.1, { p.2 with caches := { p.2.caches with creepMatrix := some p.1 } })
      (creepMatrixGrid room) := by
  refine ⟨⟨h.ok.1, h.ok.2.1, ?_, h.ok.2.2.2⟩, h.lt, h.val, h.mono, h.old⟩
  intro r hr
  have he : p.1 = r := by injection hr
  exact he ▸ ⟨h.lt, h.val⟩

theorem setSkCache_step (room : Room) (s : MatState) (p : Nat × MatState)
    (h : StepOK room s p (skMatrixGrid room)) :
    StepOK room s
      (p.1, { p.2 with caches := { p.2.caches with skMatrix := some p.1 } })
      (skMatrixGrid room) := by
  refine ⟨⟨h.ok.1, h.ok.2.1, h.ok.2.2.1, ?_⟩, h.lt, h.val, h.mono, h.old⟩
  intro r hr
  have he : p.1 = r := by injection hr
  exact he ▸ ⟨h.lt, h.val⟩

theorem getDefaultMatrixS_step (room : Room) (s : MatState) (hok : CachesOK room s) :
    StepOK room s (getDefaultMatrixS room s) (defaultMatrixGrid room) := by
  unfold getDefaultMatrixS
  cases hc : s.caches.defaultMatrix with
  | some r =>
    obtain ⟨hlt, hval⟩ := hok.1 r hc
    exact ⟨hok, hlt, hval, Nat.le_refl _, fun i _ => rfl⟩
  | none =>
    exact setDefaultCache_step room s _
      (alloc_writeCells_step room s hok emptyGrid
        (roadWrites room ++ impassibleStructureWrites room ++ siteWrites room))

theorem getDirectMatrixS_step (room : Room) (s : MatState) (hok : CachesOK room s) :
    StepOK room s (getDirectMatrixS room s) (directMatrixGrid room) := by
  unfold getDirectMatrixS
  cases hc : s.caches.directMatrix with
  | some r =>
    obtain ⟨hlt, hval⟩ := hok.2.1 r hc
    exact ⟨hok, hlt, hval, Nat.le_refl _, fun i _ => rfl⟩
  | none =>
    exact setDirectCache_step room s _
      (alloc_writeCells_step room s hok emptyGrid
        (directImpassibleWrites room ++ siteWrites room))

theorem getCreepMatrixS_step (room : Room) (s : MatState) (hok : CachesOK room s) :
    StepOK room s (getCreepMatrixS room s) (creepMatrixGrid room) := by
  unfold getCreepMatrixS
  cases hc : s.caches.creepMatrix with
  | some r =>
    obtain ⟨hlt, hval⟩ := hok.2.2.1 r hc
    exact ⟨hok, hlt, hval, Nat.le_refl _, fun i _ => rfl⟩
  | none =>
    exact setCreepCache_step room s _
      (clone_writeCells_step room s (getDefaultMatrixS room s)
        (defaultMatrixGrid room) (creepWrites room)
        (getDefaultMatrixS_step room s hok))

theorem getSkMatrixS_step (env : Env) (room : Room) (s : MatState)
    (hok : CachesOK room s) :
    StepOK room s (getSkMatrixS env room s)
      (if env.roomType room.name ≠ .sourceKeeper then defaultMatrixGrid room
       else skMatrixGrid room) := by
  unfold getSkMatrixS
  by_cases ht : env.roomType room.name ≠ .sourceKeeper
  · simp only [if_pos ht]
    exact getDefaultMatrixS_step room s hok
  · simp only [if_neg ht]
    cases hc : s.caches.skMatrix with
    | some r =>
      obtain ⟨hlt, hval⟩ := hok.2.2.2 r hc
      exact ⟨hok, hlt, hval, Nat.le_refl _, fun i _ => rfl⟩
    | none =>
      exact setSkCache_step room s _
        (clone_writeCells_step room s (getDefaultMatrixS room s)
          (defaultMatrixGrid room) (skWrites room)
          (getDefaultMatrixS_step room s hok))

theorem getBaseMatrixS_step (env : Env) (room : Room) (opts : MoveOptions)
    (s : MatState) (hok : CachesOK room s) :
    StepOK room s (getBaseMatrixS env room opts s) (baseGrid env room opts) := by
  unfold getBaseMatrixS baseGrid
  by_cases h1 : opts.ignoreCreeps = some false
  · simp only [if_pos h1]
    exact getCreepMatrixS_step room s hok
  · simp only [if_neg h1]
    by_cases h2 : opts.avoidSK = true
    · simp only [if_pos h2]
      exact getSkMatrixS_step env room s hok
    · simp only [if_neg h2]
      by_cases h3 : opts.ignoreStructures = true
      · simp only [if_pos h3]
        exact alloc_writeCells_step room s hok emptyGrid []
      · simp only [if_neg h3]
        by_cases h4 : opts.direct = some true
        · simp only [if_pos h4]
          exact getDirectMatrixS_step room s hok
        · simp only [if_neg h4]
          exact getDefaultMatrixS_step room s hok

theorem getCostMatrixS_step (env : Env) (room : Room) (opts : MoveOptions)
    (clone : Bool) (s : MatState) (hok : CachesOK room s) :
    StepOK room s (getCostMatrixS env room opts clone s)
      (getCostMatrixGrid env room opts) := by
  unfold getCostMatrixS getCostMatrixGrid
  have hbase := getBaseMatrixS_step env room opts s hok
  by_cases hobs : opts.obstacles ≠ []
  · simp only [if_pos hobs]
    have hmid := clone_writeCells_step room s (getBaseMatrixS env room opts s)
      (baseGrid env room opts) (obstacleWrites room.name opts.obstacles) hbase
    cases clone with
    | true =>
      simp only [if_pos rfl]
      exact cloneRef_step room s _ _ hmid
    | false =>
      simp only [Bool.false_eq_true, if_false]
      exact hmid
  · simp only [if_neg hobs]
    cases clone with
    | true =>
      simp only [if_pos rfl]
      exact cloneRef_step room s _ _ hbase
    | false =>
      simp only [Bool.false_eq_true, if_false]
      exact hbase

/-- C8: with fresh room caches, applying caller obstacles twice with different
    obstacle sets mutates only cloned copies: a third call with no obstacles
    returns the unmodified base matrix for the selected variant, and every cache
    slot still holds exactly the pure build of its variant (the canonical cached
    matrices are never contaminated by per-call obstacles). -/
theorem getCostMatrix_cache_purity (env : Env) (room : Room) (opts : MoveOptions)
    (obs1 obs2 : List RoomPosition) (s0 : MatState)
    (h0 : s0.caches = {}) :
    (let p1 := getCostMatrixS env room { opts with obstacles := obs1 } true s0
     let p2 := getCostMatrixS env room { opts with obstacles := obs2 } true p1.2
     let p3 := getCostMatrixS env room { opts with obstacles := [] } true p2.2
     readRef p3.2 p3.1 = baseGrid env room opts
     ∧ (∀ r, p3.2.caches.defaultMatrix = some r →
         readRef p3.2 r = defaultMatrixGrid room)
     ∧ (∀ r, p3.2.caches.directMatrix = some r →
         readRef p3.2 r = directMatrixGrid room)
     ∧ (∀ r, p3.2.caches.creepMatrix = some r →
         readRef p3.2 r = creepMatrixGrid room)
     ∧ (∀ r, p3.2.caches.skMatrix = some r →
         readRef p3.2 r = skMatrixGrid room)) := by
  have hok0 : CachesOK room s0 := by
    refine ⟨?_, ?_, ?_, ?_⟩
    all_goals intro r hr
    all_goals rw [h0] at hr
    all_goals exact Option.noConfusion hr
  have h1 := getCostMatrixS_step env room { opts with obstacles := obs1 } true s0 hok0
  have h2 := getCostMatrixS_step env room { opts with obstacles := obs2 } true
    (getCostMatrixS env room { opts with obstacles := obs1 } true s0).2 h1.ok
  have h3 := getCostMatrixS_step env room { opts with obstacles := [] } true
    (getCostMatrixS env room { opts with obstacles := obs2 } true
      (getCostMatrixS env room { opts with obstacles := obs1 } true s0).2).2 h2.ok
  have hgrid : getCostMatrixGrid env room
      { opts with obstacles := ([] : List RoomPosition) } = baseGrid env room opts := by
    unfold getCostMatrixGrid
    rw [if_neg (by simp)]
    rfl
  refine ⟨?_, ?_, ?_, ?_, ?_⟩
  · rw [← hgrid]
    exact h3.val
  · intro r hr
    exact (h3.ok.1 r hr).2
  · intro r hr
    exact (h3.ok.2.1 r hr).2
  · intro r hr
    exact (h3.ok.2.2.1 r hr).2
  · intro r hr
    exact (h3.ok.2.2.2 r hr).2

def purityS1 : Nat × MatState :=
  getCostMatrixS envBase roomRoads
    { defaultMoveOptions with obstacles := [⟨5, 5, "W1N1"⟩] } true ⟨[], {}⟩

def purityS2 : Nat × MatState :=
  getCostMatrixS envBase roomRoads
    { defaultMoveOptions with obstacles := [⟨6, 6, "W1N1"⟩] } true purityS1.2

def purityS3 : Nat × MatState :=
  getCostMatrixS envBase roomRoads defaultMoveOptions true purityS2.2

theorem getCostMatrix_cache_purity_witness :
    readRef purityS3.2 purityS3.1 = baseGrid envBase roomRoads defaultMoveOptions
    ∧ (∀ r, purityS3.2.caches.defaultMatrix = some r →
        readRef purityS3.2 r = defaultMatrixGrid roomRoads) := by
  have h := getCostMatrix_cache_purity envBase roomRoads defaultMoveOptions
    [⟨5, 5, "W1N1"⟩] [⟨6, 6, "W1N1"⟩] ⟨[], {}⟩ rfl
  exact ⟨h.1, h.2.1⟩

end OvermindPathing